import Mathlib

/-!
# Verification of the QuantatomAI grid-service core

A shallow embedding, in Lean 4, of the algorithmic core of the grid service:
the canonical coordinate model (`domain.AtomKey`), the 8-byte tagged cell
encoding (`projection`), the axis-combination generator (`planner`), the
column pruner and grid read API (`projection`), the wire-envelope decoder and
tiered cache (`storage`), the hybrid circuit breaker's failure window
(`storage`), the resilient atom fetcher (`fetcher`), and the time-intelligence
cumulative transformer (`compute`).

Go machine integers are embedded as `Nat`/`Int` with explicit `% 2 ^ w` where
wrap-around matters.  Go `float64` values appear in two ways: where the code
only reinterprets bits (the tagged cell encoding) they are embedded as their
64-bit IEEE-754 bit patterns; where the code adds small exact values (the
cumulative transformer) they are embedded as `Rat`, which agrees with
`float64` arithmetic on the exactly-representable inputs the claims use.
Go code that can panic (index out of range, invalid slice bounds) is embedded
with an outer `Option`: `none` models the panic.
-/

namespace GridService

/-! ## projection: the 8-byte tagged cell (src/unnamed/part_013)

A Go `Cell` holds one `float64`; the code reinterprets it as its `uint64`
bit pattern (`math.Float64bits` / `math.Float64frombits`).  We embed the
cell directly as that bit pattern (a `Nat < 2 ^ 64`); `math.Float64bits`
and `math.Float64frombits` are then both the identity. -/

namespace Projection

/-- `valueTagMask uint64 = 0x7FF8000000000000` — IEEE-754 exponent bits 52..62
plus the quiet-NaN bit 51. -/
def valueTagMask : Nat := 0x7FF8000000000000

/-- `valuePayloadMask = 0x0007FFFFFFFFFFFF` — the low 51 mantissa bits. -/
def valuePayloadMask : Nat := 0x0007FFFFFFFFFFFF

/-- `nullPayload uint64 = valuePayloadMask`. -/
def nullPayload : Nat := valuePayloadMask

/-- A cell; `bits` is the IEEE-754 bit pattern of the Go field `Value float64`. -/
structure Cell where
  bits : Nat
deriving Repr, DecidableEq

/-- A `float64` bit pattern is finite iff its exponent field (bits 52..62)
is not all ones (all-ones encodes infinities and NaNs). -/
def finiteBits (v : Nat) : Prop := v / 2 ^ 52 % 2 ^ 11 ≠ 2047

instance (v : Nat) : Decidable (finiteBits v) := by
  unfold finiteBits; infer_instance

/-- `EncodeNumeric(v float64) Cell { return Cell{Value: v} }` — the bit
pattern is stored verbatim. -/
def EncodeNumeric (vbits : Nat) : Cell := ⟨vbits⟩

/-- `EncodeNull()`: `payload := valueTagMask | nullPayload`. -/
def EncodeNull : Cell := ⟨valueTagMask ||| nullPayload⟩

/-- `EncodeStringIndex(idx uint32)`:
`payload := uint64(idx) & valuePayloadMask; bits := valueTagMask | payload`. -/
def EncodeStringIndex (idx : Nat) : Cell :=
  ⟨valueTagMask ||| (idx &&& valuePayloadMask)⟩

/-- `Cell.IsNull`: tag bits all set and payload equal to the null sentinel. -/
def Cell.IsNull (c : Cell) : Bool :=
  (c.bits &&& valueTagMask == valueTagMask) &&
    (c.bits &&& valuePayloadMask == nullPayload)

/-- `Cell.IsString`: tag bits all set and payload different from the sentinel. -/
def Cell.IsString (c : Cell) : Bool :=
  (c.bits &&& valueTagMask == valueTagMask) &&
    (c.bits &&& valuePayloadMask != nullPayload)

/-- `Cell.StringIndex`: `uint32(bits & valuePayloadMask)` — the uint64→uint32
conversion truncates to the low 32 bits. -/
def Cell.StringIndex (c : Cell) : Nat :=
  (c.bits &&& valuePayloadMask) % 2 ^ 32

/-- `Cell.AsNumeric` returns the stored `float64`, i.e. the bit pattern. -/
def Cell.AsNumeric (c : Cell) : Nat := c.bits

/-- A finite bit pattern cannot have all tag bits set: the tag mask contains
the full exponent field. -/
theorem finite_tag_ne (v : Nat) (hfin : finiteBits v) :
    (v &&& valueTagMask == valueTagMask) = false := by
  by_contra h
  apply hfin
  have hand : v &&& valueTagMask = valueTagMask := by
    revert h
    cases Nat.decEq (v &&& valueTagMask) valueTagMask with
    | isTrue h => intro _; exact h
    | isFalse h => intro hc; simp [beq_eq_false_iff_ne.mpr h] at hc
  -- every bit set in the mask is set in `v`
  have hbit : ∀ i, valueTagMask.testBit i = true → v.testBit i = true := by
    intro i hi
    have := congrArg (fun n => n.testBit i) hand
    simpa [Nat.testBit_and, hi] using this
  -- hence the exponent field `v / 2^52 % 2^11` is all ones
  apply Nat.eq_of_testBit_eq
  intro i
  rcases Nat.lt_or_ge i 11 with hlt | hge
  · have hv52 : v.testBit (52 + i) = true := by
      apply hbit
      have : valueTagMask = 0x7FF8000000000000 := rfl
      interval_cases i <;> decide
    have h1 : (v / 2 ^ 52 % 2 ^ 11).testBit i = (v / 2 ^ 52).testBit i := by
      rw [Nat.testBit_mod_two_pow]
      simp [hlt]
    have h2 : (v / 2 ^ 52).testBit i = v.testBit (52 + i) := by
      have := Nat.testBit_shiftRight (x := v) (i := 52) (j := i)
      simpa [Nat.shiftRight_eq_div_pow] using this
    have h3 : (2047 : Nat).testBit i = true := by
      have : (2047 : Nat) = 2 ^ 11 - 1 := by norm_num
      rw [this, Nat.testBit_two_pow_sub_one]
      simpa using hlt
    rw [h1, h2, hv52, h3]
  · have hlt1 : v / 2 ^ 52 % 2 ^ 11 < 2 ^ i :=
      lt_of_lt_of_le (Nat.mod_lt _ (by positivity)) (Nat.pow_le_pow_right (by norm_num) hge)
    have hlt2 : (2047 : Nat) < 2 ^ i :=
      lt_of_lt_of_le (by norm_num) (Nat.pow_le_pow_right (by norm_num) hge)
    rw [Nat.testBit_lt_two_pow hlt1, Nat.testBit_lt_two_pow hlt2]

/-- Or-ing a mask in and then and-ing with it recovers the full mask. -/
theorem or_and_self_mask (m x : Nat) : (m ||| x) &&& m = m := by
  apply Nat.eq_of_testBit_eq
  intro i
  simp [Nat.testBit_and, Nat.testBit_or]
  cases m.testBit i <;> simp

/-- For `idx < 2 ^ 32`, the payload of a string cell is exactly `idx`. -/
theorem stringIndex_payload (idx : Nat) (h : idx < 2 ^ 32) :
    (valueTagMask ||| (idx &&& valuePayloadMask)) &&& valuePayloadMask = idx := by
  have hidx : idx &&& valuePayloadMask = idx := by
    have : valuePayloadMask = 2 ^ 51 - 1 := by decide
    rw [this, Nat.and_pow_two_sub_one_eq_mod]
    exact Nat.mod_eq_of_lt (lt_of_lt_of_le h (by norm_num))
  rw [hidx]
  apply Nat.eq_of_testBit_eq
  intro i
  rcases Nat.lt_or_ge i 51 with hlt | hge
  · have htag : valueTagMask.testBit i = false := by
      have : valueTagMask = 0x7FF8000000000000 := rfl
      interval_cases i <;> decide
    have hpay : valuePayloadMask.testBit i = true := by
      have : valuePayloadMask = 2 ^ 51 - 1 := by decide
      rw [this, Nat.testBit_two_pow_sub_one]
      simpa using hlt
    simp [Nat.testBit_and, Nat.testBit_or, htag, hpay]
  · have hpay : valuePayloadMask.testBit i = false := by
      apply Nat.testBit_lt_two_pow
      calc valuePayloadMask < 2 ^ 51 := by decide
        _ ≤ 2 ^ i := Nat.pow_le_pow_right (by norm_num) hge
    have hidxbit : idx.testBit i = false := by
      apply Nat.testBit_lt_two_pow
      calc idx < 2 ^ 32 := h
        _ ≤ 2 ^ i := Nat.pow_le_pow_right (by norm_num) (le_trans (by norm_num) hge)
    simp [Nat.testBit_and, hpay, hidxbit]

/-- C6: the 8-byte tagged cell encoding is unambiguous: a finite numeric bit
pattern is classified as neither null nor string and round-trips through
`AsNumeric`; the null cell is null and not a string; a string-index cell is a
string, not null, and round-trips its 32-bit index. -/
theorem claim_C6_cell_tag_unambiguous :
    (∀ v : Nat, finiteBits v →
      (EncodeNumeric v).IsNull = false ∧ (EncodeNumeric v).IsString = false ∧
        (EncodeNumeric v).AsNumeric = v) ∧
    (EncodeNull.IsNull = true ∧ EncodeNull.IsString = false) ∧
    (∀ idx : Nat, idx < 2 ^ 32 →
      (EncodeStringIndex idx).IsString = true ∧
        (EncodeStringIndex idx).IsNull = false ∧
        (EncodeStringIndex idx).StringIndex = idx) := by
  refine ⟨fun v hfin => ?_, ⟨by decide, by decide⟩, fun idx hidx => ?_⟩
  · exact ⟨by simp [Cell.IsNull, EncodeNumeric, finite_tag_ne v hfin],
      by simp [Cell.IsString, EncodeNumeric, finite_tag_ne v hfin], rfl⟩
  · have hpay := stringIndex_payload idx hidx
    have hne : idx ≠ nullPayload := by
      have : idx < nullPayload := lt_of_lt_of_le hidx (by norm_num [nullPayload, valuePayloadMask])
      exact Nat.ne_of_lt this
    refine ⟨?_, ?_, ?_⟩
    · simp [Cell.IsString, EncodeStringIndex, or_and_self_mask, hpay, hne]
    · simp [Cell.IsNull, EncodeStringIndex, hpay, hne]
    · simp only [Cell.StringIndex, EncodeStringIndex]
      rw [hpay]
      exact Nat.mod_eq_of_lt hidx

/-- Witness for C6 at the finite pattern `v = 5` and the index `idx = 7`. -/
theorem claim_C6_witness :
    (EncodeNumeric 5).IsNull = false ∧ (EncodeStringIndex 7).StringIndex = 7 :=
  ⟨(claim_C6_cell_tag_unambiguous.1 5 (by decide)).1,
    (claim_C6_cell_tag_unambiguous.2.2 7 (by decide)).2.2⟩

end Projection

/-! ## domain: AtomKey canonicalization and hashing
(src/services/grid-service/src/mapping/dimresolver.go, package `domain`)

`AtomKey.DimIDs` is a `[8]int64` of which only the first `DimCount` slots are
ever read (both the sort and the hash stop at `DimCount`); we embed the key
with exactly those active slots as a list.  `int64` values are embedded as
`Int`; the `uint64(id)` cast in `HashKey` is two's-complement reduction
`% 2 ^ 64`. -/

namespace Domain

/-- The active prefix of `DimIDs [8]int64` (`DimCount` entries), plus the
first-class `MeasureID` and `ScenarioID`. -/
structure AtomKey where
  DimIDs : List Int
  MeasureID : Int
  ScenarioID : Int
deriving Repr, DecidableEq

/-- `EnsureCanonical` sorts `DimIDs[:DimCount]` ascending in place
(`sort.Slice` with `dims[i] < dims[j]`); for `DimCount <= 1` it returns
immediately. -/
def AtomKey.EnsureCanonical (k : AtomKey) : AtomKey :=
  if k.DimIDs.length ≤ 1 then k
  else { k with DimIDs := k.DimIDs.insertionSort (· ≤ ·) }

/-- Go `uint64(id)` for `id int64`: two's-complement reduction mod `2 ^ 64`. -/
def toUInt64Bits (i : Int) : Nat := (i % (2 ^ 64 : Int)).toNat

/-- `binary.LittleEndian.PutUint64`: the eight bytes of `n`, least significant
first. -/
def leBytes8 (n : Nat) : List Nat :=
  (List.range 8).map fun i => n / 2 ^ (8 * i) % 256

/-- One step of FNV-1a 64: xor the byte in, multiply by the FNV prime,
wrapping at 64 bits. -/
def fnv1aStep (h b : Nat) : Nat := (h ^^^ b) * 1099511628211 % 2 ^ 64

/-- `fnv.New64a` + `Write`: fold FNV-1a over a byte stream from the 64-bit
offset basis. -/
def fnv1a (bytes : List Nat) : Nat := bytes.foldl fnv1aStep 14695981039346656037

/-- `HashKey`: canonicalize, then hash the little-endian bytes of each active
dimension id, then of the measure id, then of the scenario id. -/
def AtomKey.HashKey (k : AtomKey) : Nat :=
  fnv1a ((k.EnsureCanonical.DimIDs.map fun id => leBytes8 (toUInt64Bits id)).flatten ++
    leBytes8 (toUInt64Bits k.EnsureCanonical.MeasureID) ++
    leBytes8 (toUInt64Bits k.EnsureCanonical.ScenarioID))

/-- `EnsureCanonical` always produces the ascending sort (for length ≤ 1 the
sort is the identity, so the early return agrees with it). -/
theorem ensureCanonical_dimIDs (k : AtomKey) :
    k.EnsureCanonical.DimIDs = k.DimIDs.insertionSort (· ≤ ·) := by
  unfold AtomKey.EnsureCanonical
  rcases hk : k.DimIDs with _ | ⟨a, _ | ⟨b, t⟩⟩ <;> simp [hk, List.insertionSort]

/-- `EnsureCanonical` does not touch the measure id. -/
theorem ensureCanonical_measureID (k : AtomKey) :
    k.EnsureCanonical.MeasureID = k.MeasureID := by
  unfold AtomKey.EnsureCanonical
  split <;> rfl

/-- `EnsureCanonical` does not touch the scenario id. -/
theorem ensureCanonical_scenarioID (k : AtomKey) :
    k.EnsureCanonical.ScenarioID = k.ScenarioID := by
  unfold AtomKey.EnsureCanonical
  split <;> rfl

/-- C1: building an `AtomKey` from any two permutations of the same set of at
most 8 dimension-member ids, with the measure and scenario ids fixed, and
applying `EnsureCanonical` followed by `HashKey`, yields the same canonical
dimension ordering and the same 64-bit hash. -/
theorem claim_C1_hash_order_independence
    (dims₁ dims₂ : List Int) (m s : Int)
    (hperm : List.Perm dims₁ dims₂) (_hlen : dims₁.length ≤ 8) :
    (AtomKey.mk dims₁ m s).EnsureCanonical.DimIDs
        = (AtomKey.mk dims₂ m s).EnsureCanonical.DimIDs ∧
    (AtomKey.mk dims₁ m s).HashKey = (AtomKey.mk dims₂ m s).HashKey := by
  have hsort : dims₁.insertionSort (· ≤ ·) = dims₂.insertionSort (· ≤ ·) :=
    List.eq_of_perm_of_sorted
      ((List.perm_insertionSort _ dims₁).trans
        (hperm.trans (List.perm_insertionSort _ dims₂).symm))
      (List.sorted_insertionSort _ dims₁) (List.sorted_insertionSort _ dims₂)
  have hdims : (AtomKey.mk dims₁ m s).EnsureCanonical.DimIDs
      = (AtomKey.mk dims₂ m s).EnsureCanonical.DimIDs := by
    rw [ensureCanonical_dimIDs, ensureCanonical_dimIDs]
    exact hsort
  refine ⟨hdims, ?_⟩
  unfold AtomKey.HashKey
  rw [hdims, ensureCanonical_measureID, ensureCanonical_measureID,
    ensureCanonical_scenarioID, ensureCanonical_scenarioID]

/-- Witness for C1 at the permutations `[3, 1, 2]` and `[2, 3, 1]` with
measure id 10 and scenario id 20. -/
theorem claim_C1_witness :
    (AtomKey.mk [3, 1, 2] 10 20).EnsureCanonical.DimIDs
        = (AtomKey.mk [2, 3, 1] 10 20).EnsureCanonical.DimIDs ∧
    (AtomKey.mk [3, 1, 2] 10 20).HashKey = (AtomKey.mk [2, 3, 1] 10 20).HashKey :=
  claim_C1_hash_order_independence [3, 1, 2] [2, 3, 1] 10 20 (by decide) (by decide)

end Domain

/-! ## storage: wire envelope validation on read
(src/services/grid-service/src/storage/main.go, `RedisGridCache.Read`)

The envelope is a flatbuffer carrying a wire version, a CRC-32 checksum and
the payload bytes; field access is embedded as plain record access.  Bytes
are `Nat < 256`. -/

namespace Storage

/-- One reflected CRC-32 shift-and-conditionally-xor round
(polynomial `0xEDB88320`). -/
def crc32Round (c : Nat) : Nat :=
  if c % 2 = 1 then c / 2 ^^^ 0xEDB88320 else c / 2

/-- Absorb one byte into a CRC-32 state: xor it in, then run eight rounds. -/
def crc32Byte (c b : Nat) : Nat := crc32Round^[8] (c ^^^ b % 256)

/-- `crc32.ChecksumIEEE` — modelled from the Go standard library definition of
CRC-32 (IEEE 802.3): fold over the bytes from `0xFFFFFFFF`, then complement. -/
def crc32 (bytes : List Nat) : Nat :=
  bytes.foldl crc32Byte 0xFFFFFFFF ^^^ 0xFFFFFFFF

/-- The errors `RedisGridCache.Read` can surface (plus the pass-through
client error). -/
inductive ReadError where
  | clientError
  | incompatibleWireVersion
  | emptyPayload
  | checksumMismatch
deriving Repr, DecidableEq

/-- `WireVersionV2 = 2`. -/
def WireVersionV2 : Nat := 2

/-- The decoded `GridWireEnvelope` fields that `Read` inspects. -/
structure GridWireEnvelope where
  wireVersion : Nat
  contentChecksum : Nat
  payload : List Nat
deriving Repr, DecidableEq

/-- `RedisGridCache.Read`: propagate the client error, then check the wire
version, then reject an empty payload, then verify the CRC-32 checksum, and
only then hand the payload to `DecodeGrid` (the `.ok` result carries the
payload that gets decoded into the target). -/
def RedisGridCacheRead (data : Except Unit GridWireEnvelope) :
    Except ReadError (List Nat) :=
  match data with
  | .error _ => .error .clientError
  | .ok env =>
    if env.wireVersion ≠ WireVersionV2 then .error .incompatibleWireVersion
    else if env.payload.length = 0 then .error .emptyPayload
    else if crc32 env.payload ≠ env.contentChecksum then .error .checksumMismatch
    else .ok env.payload

/-- C5: `Read` never decodes an invalid envelope: a wrong wire version yields
`ErrIncompatibleWireVersion`, an empty payload yields `ErrEmptyPayload`, a
checksum mismatch yields `ErrChecksumMismatch`, and a successful read implies
the envelope passed all three checks and the decoded payload is the
envelope's payload. -/
theorem claim_C5_read_rejects_invalid_envelopes (env : GridWireEnvelope) :
    (env.wireVersion ≠ WireVersionV2 →
      RedisGridCacheRead (.ok env) = .error .incompatibleWireVersion) ∧
    (env.wireVersion = WireVersionV2 → env.payload = [] →
      RedisGridCacheRead (.ok env) = .error .emptyPayload) ∧
    (env.wireVersion = WireVersionV2 → env.payload ≠ [] →
      crc32 env.payload ≠ env.contentChecksum →
      RedisGridCacheRead (.ok env) = .error .checksumMismatch) ∧
    (∀ p, RedisGridCacheRead (.ok env) = .ok p →
      env.wireVersion = WireVersionV2 ∧ env.payload ≠ [] ∧
        crc32 env.payload = env.contentChecksum ∧ p = env.payload) := by
  refine ⟨fun hv => ?_, fun hv hp => ?_, fun hv hp hc => ?_, fun p hok => ?_⟩
  · simp [RedisGridCacheRead, hv]
  · simp [RedisGridCacheRead, hv, hp]
  · have hlen : env.payload.length ≠ 0 := by simpa using hp
    simp [RedisGridCacheRead, hv, hlen, hc]
  · simp only [RedisGridCacheRead] at hok
    split_ifs at hok with h1 h2 h3
    cases hok
    exact ⟨not_not.mp h1, fun hnil => h2 (by simp [hnil]), not_not.mp h3, rfl⟩

/-- Witness for C5: an envelope with wire version 3 is rejected with
`incompatibleWireVersion`, and an envelope with a corrupt checksum is
rejected with `checksumMismatch`. -/
theorem claim_C5_witness :
    RedisGridCacheRead (.ok ⟨3, 0, [1, 2]⟩) = .error .incompatibleWireVersion ∧
    RedisGridCacheRead (.ok ⟨2, 0, [1, 2]⟩) = .error .checksumMismatch :=
  ⟨(claim_C5_read_rejects_invalid_envelopes ⟨3, 0, [1, 2]⟩).1 (by decide),
    (claim_C5_read_rejects_invalid_envelopes ⟨2, 0, [1, 2]⟩).2.2.1 (by decide)
      (by decide) (by decide)⟩

end Storage

/-! ## planner: the lazy axis-combination generator
(src/services/grid-service/src/planner/axis_generator.go)

Members are a type parameter `M` (the generator never inspects `MemberInfo`
fields on the unsorted path; the optional `sortAxes` pass only permutes each
axis's members before the same enumeration, so the embedding covers the
`sortAxes=false` path).  The unused, never-assigned `err` field is omitted.
Go code that can panic (`axes[axisIdx][memberIdx]` out of range) is embedded
with an outer `Option`: `none` models the panic. -/

namespace Planner

/-- State of `recursiveAxisGenerator`. -/
structure GenState (M : Type) where
  axes : List (List M)
  indexes : List Nat
  started : Bool
  done : Bool
deriving Repr, DecidableEq

/-- `buildCurrent`: read `axes[axisIdx][indexes[axisIdx]]` for every level.
`none` models the index-out-of-range panic. -/
def buildCurrent {M : Type} : List (List M) → List Nat → Option (List M)
  | [], [] => some []
  | a :: restAxes, i :: restIdx =>
    match a[i]?, buildCurrent restAxes restIdx with
    | some m, some rest => some (m :: rest)
    | _, _ => none
  | _, _ => none

/-- The all-zero index vector (`make([]int, len(axes))`). -/
def zeros {M : Type} (axes : List (List M)) : List Nat := axes.map fun _ => 0

/-- The mixed-radix successor computed by the increment loop in `Next`: the
loop walks levels right-to-left, so the recursion tries to advance the deeper
(tail) digits first; when a level advances, all deeper levels reset to zero;
when even the leftmost level overflows, the counter is exhausted. -/
def inc {M : Type} : List (List M) → List Nat → Option (List Nat)
  | [], [] => none
  | a :: restAxes, i :: restIdx =>
    match inc restAxes restIdx with
    | some restIdx2 => some (i :: restIdx2)
    | none => if i + 1 < a.length then some ((i + 1) :: zeros restAxes) else none
  | _, _ => none

/-- `recursiveAxisGenerator.Next`.  After exhaustion the Go code leaves the
overflowed `indexes` in place; the `done` flag makes them unobservable, so
the embedding keeps them unchanged.  The outer `none` models a panic in
`buildCurrent`. -/
def next {M : Type} (s : GenState M) : Option (Option (List M) × GenState M) :=
  if s.done then some (none, s)
  else if s.started = false then
    match buildCurrent s.axes s.indexes with
    | some c => some (some c, { s with started := true })
    | none => none
  else
    match inc s.axes s.indexes with
    | some idx2 =>
      match buildCurrent s.axes idx2 with
      | some c => some (some c, { s with indexes := idx2 })
      | none => none
    | none => some (none, { s with done := true })

/-- A generator as returned by `NewAxisGenerator`: the no-op
`emptyAxisGenerator`, or a `recursiveAxisGenerator`. -/
inductive Generator (M : Type) where
  | emptyGen
  | recGen (s : GenState M)
deriving Repr, DecidableEq

/-- `Next` on either generator shape. -/
def genNext {M : Type} : Generator M → Option (Option (List M) × Generator M)
  | .emptyGen => some (none, .emptyGen)
  | .recGen s => (next s).map fun r => (r.1, .recGen r.2)

/-- `NewAxisGenerator` (with `sortAxes=false`): the empty axes list gets the
no-op generator; a depth over the maximum (`maxStackDepth <= 0`, embedded as
`= 0`, selects the default 64) is rejected; otherwise the counter starts at
all zeroes, not yet started. -/
def NewAxisGenerator {M : Type} (axes : List (List M)) (maxStackDepth : Nat) :
    Except String (Generator M) :=
  if axes.length = 0 then .ok .emptyGen
  else if axes.length > (if maxStackDepth = 0 then 64 else maxStackDepth) then
    .error "axis stack depth exceeds max"
  else .ok (.recGen ⟨axes, zeros axes, false, false⟩)

/-- Call `Next` until it returns `false`, collecting the emitted
combinations; `none` if some call panics; `fuel` bounds the number of calls. -/
def runGen {M : Type} : Generator M → Nat → Option (List (List M))
  | _, 0 => some []
  | g, fuel + 1 =>
    match genNext g with
    | none => none
    | some (none, _) => some []
    | some (some c, g2) => (runGen g2 fuel).map (c :: ·)

/-- Specification: every combination in odometer order — leftmost axis
slowest, the lowest digit being the last axis — i.e. the lexicographic
Cartesian product. -/
def cartesian {M : Type} : List (List M) → List (List M)
  | [] => [[]]
  | a :: restAxes => (a.map fun x => (cartesian restAxes).map (x :: ·)).flatten

/-- One axis segment of the odometer suffix: `cur` is the suffix for the
deeper axes, `ys` the remaining members of this axis from the current digit. -/
def tailSeg {M : Type} (cur : List (List M)) (restAxes : List (List M))
    (ys : List M) : List (List M) :=
  match ys with
  | [] => []
  | x :: xs =>
    cur.map (x :: ·) ++ (xs.map fun y => (cartesian restAxes).map (y :: ·)).flatten

/-- The suffix of the odometer sequence that starts at index vector `idx`. -/
def tailStream {M : Type} : List (List M) → List Nat → List (List M)
  | [], [] => [[]]
  | a :: restAxes, i :: restIdx =>
    tailSeg (tailStream restAxes restIdx) restAxes (a.drop i)
  | _, _ => []

/-- A valid index vector: one in-range digit per axis. -/
def ValidIdx {M : Type} (axes : List (List M)) (idx : List Nat) : Prop :=
  List.Forall₂ (fun i a => i < a.length) idx axes

/-- A valid counter forces every axis to be nonempty. -/
theorem ValidIdx.axes_ne_nil {M : Type} {axes : List (List M)} {idx : List Nat}
    (h : ValidIdx axes idx) : ∀ a ∈ axes, a ≠ [] := by
  induction h with
  | nil => intro a ha; cases ha
  | cons hlt _ ih =>
    intro a ha
    rcases List.mem_cons.mp ha with rfl | ha2
    · exact List.length_pos.mp (lt_of_le_of_lt (Nat.zero_le _) hlt)
    · exact ih a ha2

/-- Each axis nonempty gives a valid all-zero counter. -/
theorem zeros_valid {M : Type} (axes : List (List M)) (hax : ∀ a ∈ axes, a ≠ []) :
    ValidIdx axes (zeros axes) := by
  induction axes with
  | nil => exact List.Forall₂.nil
  | cons a rest ih =>
    refine List.Forall₂.cons ?_ (ih fun x hx => hax x (List.mem_cons_of_mem _ hx))
    exact List.length_pos.mpr (hax a (List.mem_cons_self _ _))

/-- A valid counter can always be read: `buildCurrent` does not panic. -/
theorem buildCurrent_isSome {M : Type} (axes : List (List M)) (idx : List Nat)
    (h : ValidIdx axes idx) : ∃ c, buildCurrent axes idx = some c := by
  induction axes generalizing idx with
  | nil => cases h; exact ⟨[], rfl⟩
  | cons a rest ih =>
    cases h with
    | cons hlt hrest =>
      rename_i i restIdx
      obtain ⟨c, hc⟩ := ih restIdx hrest
      exact ⟨a[i] :: c, by simp [buildCurrent, List.getElem?_eq_getElem hlt, hc]⟩

/-- The successor of a valid counter is valid. -/
theorem inc_valid {M : Type} (axes : List (List M)) (idx idx2 : List Nat)
    (h : ValidIdx axes idx) (h2 : inc axes idx = some idx2) :
    ValidIdx axes idx2 := by
  induction axes generalizing idx idx2 with
  | nil =>
    cases h
    simp [inc] at h2
  | cons a rest ih =>
    cases h with
    | cons hlt hrest =>
      rename_i i restIdx
      simp only [inc] at h2
      cases hrec : inc rest restIdx with
      | some r2 =>
        rw [hrec] at h2
        cases h2
        exact List.Forall₂.cons hlt (ih _ _ hrest hrec)
      | none =>
        rw [hrec] at h2
        by_cases hi : i + 1 < a.length
        · rw [if_pos hi] at h2
          cases h2
          exact List.Forall₂.cons hi (zeros_valid rest (ValidIdx.axes_ne_nil hrest))
        · rw [if_neg hi] at h2
          cases h2

/-- Unfolding `tailStream` on a cons cell once the head drop is known. -/
theorem tailStream_cons_drop {M : Type} (a : List M) (rest : List (List M))
    (i : Nat) (restIdx : List Nat) (x : M) (xs : List M)
    (hdrop : a.drop i = x :: xs) :
    tailStream (a :: rest) (i :: restIdx) =
      (tailStream rest restIdx).map (x :: ·) ++
        (xs.map fun y => (cartesian rest).map (y :: ·)).flatten := by
  rw [show tailStream (a :: rest) (i :: restIdx)
    = tailSeg (tailStream rest restIdx) rest (a.drop i) from rfl, hdrop]
  rfl

/-- On all-nonempty axes, the odometer suffix starting at zero is the full
Cartesian product. -/
theorem tailStream_zeros {M : Type} (axes : List (List M))
    (hax : ∀ a ∈ axes, a ≠ []) :
    tailStream axes (zeros axes) = cartesian axes := by
  induction axes with
  | nil => rfl
  | cons a rest ih =>
    obtain ⟨x, xs, hxa⟩ := List.exists_cons_of_ne_nil (hax a (List.mem_cons_self _ _))
    have hz : zeros (a :: rest) = 0 :: zeros rest := rfl
    have hdrop : a.drop 0 = x :: xs := by rw [List.drop_zero, hxa]
    rw [hz, tailStream_cons_drop a rest 0 (zeros rest) x xs hdrop,
      ih fun b hb => hax b (List.mem_cons_of_mem _ hb)]
    rw [show cartesian (a :: rest)
      = (a.map fun y => (cartesian rest).map (y :: ·)).flatten from rfl, hxa]
    simp

/-- Unrolling the odometer suffix one step: at a valid counter it starts with
the current combination, followed by the suffix at the successor counter. -/
theorem tailStream_eq_cons {M : Type} (axes : List (List M)) (idx : List Nat)
    (h : ValidIdx axes idx) :
    ∃ c, buildCurrent axes idx = some c ∧
      tailStream axes idx = c :: (inc axes idx).elim [] (tailStream axes) := by
  induction axes generalizing idx with
  | nil =>
    cases h
    exact ⟨[], rfl, rfl⟩
  | cons a rest ih =>
    cases h with
    | cons hlt hrest =>
      rename_i i restIdx
      obtain ⟨cr, hcr, htr⟩ := ih restIdx hrest
      have hdrop : a.drop i = a[i] :: a.drop (i + 1) := List.drop_eq_getElem_cons hlt
      refine ⟨a[i] :: cr, by simp [buildCurrent, List.getElem?_eq_getElem hlt, hcr], ?_⟩
      rw [tailStream_cons_drop a rest i restIdx _ _ hdrop, htr]
      cases hrec : inc rest restIdx with
      | some r2 =>
        have hinc : inc (a :: rest) (i :: restIdx) = some (i :: r2) := by
          simp [inc, hrec]
        rw [hinc]
        simp only [Option.elim, List.map_cons, List.cons_append]
        rw [tailStream_cons_drop a rest i r2 _ _ hdrop]
      | none =>
        have hinc : inc (a :: rest) (i :: restIdx)
            = if i + 1 < a.length then some ((i + 1) :: zeros rest) else none := by
          simp [inc, hrec]
        rw [hinc]
        by_cases hi : i + 1 < a.length
        · rw [if_pos hi]
          have hdrop2 : a.drop (i + 1) = a[i + 1] :: a.drop (i + 2) :=
            List.drop_eq_getElem_cons hi
          simp only [Option.elim, List.map_cons, List.map_nil, List.cons_append,
            List.nil_append]
          rw [tailStream_cons_drop a rest (i + 1) (zeros rest) _ _ hdrop2,
            tailStream_zeros rest (ValidIdx.axes_ne_nil hrest), hdrop2]
          simp
          rw [← List.map_drop, ← List.map_drop, hdrop2]
          simp only [List.map_cons, List.flatten_cons]
        · rw [if_neg hi]
          have hdrop2 : a.drop (i + 1) = [] :=
            List.drop_eq_nil_of_le (Nat.le_of_not_lt hi)
          simp [hdrop2]

/-- `next` on a not-yet-started state, unfolded. -/
theorem next_unstarted {M : Type} (axes : List (List M)) (idx : List Nat) :
    next (⟨axes, idx, false, false⟩ : GenState M)
      = match buildCurrent axes idx with
        | some c => some (some c, ⟨axes, idx, true, false⟩)
        | none => none := rfl

/-- `next` on a running (started, not done) state, unfolded. -/
theorem next_running {M : Type} (axes : List (List M)) (idx : List Nat) :
    next (⟨axes, idx, true, false⟩ : GenState M)
      = match inc axes idx with
        | some idx2 =>
          match buildCurrent axes idx2 with
          | some c => some (some c, ⟨axes, idx2, true, false⟩)
          | none => none
        | none => some (none, ⟨axes, idx, true, true⟩) := rfl

/-- `runGen` on positive fuel, unfolded. -/
theorem runGen_succ {M : Type} (g : Generator M) (f : Nat) :
    runGen g (f + 1) = match genNext g with
      | none => none
      | some (none, _) => some []
      | some (some c, g2) => (runGen g2 f).map (c :: ·) := rfl

/-- A running generator at a valid counter emits exactly the odometer suffix
after its current combination, then reports exhaustion, given enough fuel. -/
theorem runGen_inv {M : Type} (axes : List (List M)) (idx : List Nat)
    (h : ValidIdx axes idx) (fuel : Nat)
    (hfuel : ((inc axes idx).elim [] (tailStream axes)).length + 1 ≤ fuel) :
    runGen (.recGen ⟨axes, idx, true, false⟩) fuel
      = some ((inc axes idx).elim [] (tailStream axes)) := by
  induction fuel generalizing idx with
  | zero => omega
  | succ f ih =>
    rw [runGen_succ]
    simp only [genNext, next_running]
    cases hrec : inc axes idx with
    | none => simp
    | some idx2 =>
      have hvalid2 := inc_valid axes idx idx2 h hrec
      obtain ⟨c, hc, htail⟩ := tailStream_eq_cons axes idx2 hvalid2
      dsimp only
      rw [hc]
      dsimp only [Option.map]
      have hlen : ((inc axes idx2).elim [] (tailStream axes)).length + 1 ≤ f := by
        have h1 : (tailStream axes idx2).length
            = ((inc axes idx2).elim [] (tailStream axes)).length + 1 := by
          rw [htail]; rfl
        have h2 : ((inc axes idx).elim [] (tailStream axes)).length + 1 ≤ f + 1 := hfuel
        rw [hrec] at h2
        simp only [Option.elim] at h2
        omega
      rw [ih idx2 hvalid2 hlen]
      dsimp only [Option.map, Option.elim]
      rw [htail]
      rfl

/-- The Cartesian product has exactly the product of the axis lengths. -/
theorem cartesian_cons_length {M : Type} (a : List M) (rest : List (List M)) :
    ((a.map fun x => (cartesian rest).map (x :: ·)).flatten).length
      = a.length * (cartesian rest).length := by
  induction a with
  | nil => simp
  | cons x xs ih =>
    simp only [List.map_cons, List.flatten_cons, List.length_append,
      List.length_map, List.length_cons, ih]
    ring

theorem cartesian_length {M : Type} (axes : List (List M)) :
    (cartesian axes).length = (axes.map List.length).prod := by
  induction axes with
  | nil => rfl
  | cons a rest ih =>
    show ((a.map fun x => (cartesian rest).map (x :: ·)).flatten).length = _
    rw [cartesian_cons_length, ih]
    simp

/-- One axis worth of blocks is duplicate-free when the axis and the deeper
product are. -/
theorem blocks_nodup {M : Type} (rest : List (List M)) (a : List M)
    (ha : a.Nodup) (hc : (cartesian rest).Nodup) :
    ((a.map fun x => (cartesian rest).map (x :: ·)).flatten).Nodup := by
  induction a with
  | nil => simp
  | cons x xs ihx =>
    simp only [List.map_cons, List.flatten_cons]
    rw [List.nodup_append]
    refine ⟨hc.map fun l1 l2 hl => ?_, ihx (List.Nodup.of_cons ha), ?_⟩
    · injection hl
    · intro l hl1 hl2
      obtain ⟨c1, _, rfl⟩ := List.mem_map.mp hl1
      obtain ⟨blk, hblk, hlblk⟩ := List.mem_flatten.mp hl2
      obtain ⟨y, hy, rfl⟩ := List.mem_map.mp hblk
      obtain ⟨c2, _, heq⟩ := List.mem_map.mp hlblk
      injection heq with h1 _
      subst h1
      exact (List.nodup_cons.mp ha).1 hy

theorem cartesian_nodup {M : Type} (axes : List (List M))
    (h : ∀ a ∈ axes, a.Nodup) : (cartesian axes).Nodup := by
  induction axes with
  | nil => simp [cartesian]
  | cons a rest ih =>
    exact blocks_nodup rest a (h a (List.mem_cons_self _ _))
      (ih fun b hb => h b (List.mem_cons_of_mem _ hb))

/-- Once `Next` has returned `false`, the state is final: calling `Next`
again returns `false` with the state unchanged. -/
theorem next_false_stable {M : Type} (s s2 : GenState M)
    (h : next s = some (none, s2)) : next s2 = some (none, s2) := by
  unfold next at h ⊢
  by_cases hd : s.done
  · rw [if_pos hd] at h
    cases h
    rw [if_pos hd]
  · rw [if_neg hd] at h
    by_cases hs : s.started = false
    · rw [if_pos hs] at h
      cases hb : buildCurrent s.axes s.indexes with
      | some c => rw [hb] at h; simp at h
      | none => rw [hb] at h; simp at h
    · rw [if_neg hs] at h
      cases hi : inc s.axes s.indexes with
      | some idx2 =>
        rw [hi] at h
        dsimp only at h
        cases hb : buildCurrent s.axes idx2 with
        | some c => simp [hb] at h
        | none => simp [hb] at h
      | none =>
        rw [hi] at h
        dsimp only at h
        cases h
        rfl

/-- Termination is idempotent and side-effect-free at the generator level. -/
theorem genNext_false_idempotent {M : Type} (g1 g2 : Generator M)
    (h : genNext g1 = some (none, g2)) : genNext g2 = some (none, g2) := by
  cases g1 with
  | emptyGen =>
    simp only [genNext] at h
    cases h
    rfl
  | recGen s =>
    simp only [genNext] at h
    cases hnext : next s with
    | none => rw [hnext] at h; cases h
    | some r =>
      rw [hnext] at h
      obtain ⟨oc, s2⟩ := r
      dsimp only [Option.map] at h
      injection h with h2
      injection h2 with hoc hg
      subst hg
      cases oc with
      | some c => cases hoc
      | none =>
        simp only [genNext]
        rw [next_false_stable s s2 hnext]
        rfl

/-- C4 as stated is false: for the axes list `[[]]` (one empty axis) the
product of the axis lengths is 0, so the claimed behavior is that the very
first `Next()` already returns `false`; instead `buildCurrent` indexes the
empty axis out of range — a panic, embedded as the outer `none`. -/
theorem claim_C4_counterexample :
    NewAxisGenerator ([[]] : List (List Nat)) 0
        = .ok (.recGen ⟨[[]], [0], false, false⟩) ∧
    (([[]] : List (List Nat)).map List.length).prod = 0 ∧
    genNext (Generator.recGen (⟨[[]], [0], false, false⟩ : GenState Nat)) = none :=
  ⟨rfl, rfl, rfl⟩

/-- C4 (amended): for a nonempty axes list whose axes are all nonempty and
whose depth passes the guard, the generator emits exactly the
`∏ len(axis_i)` combinations of the odometer-order Cartesian product; those
combinations are pairwise distinct whenever each axis's members are; and once
`Next()` has returned `false`, every further call returns `false` with the
generator unchanged. -/
theorem claim_C4_axis_generator (M : Type) (axes : List (List M))
    (maxStackDepth : Nat) (g : Generator M)
    (hne : axes ≠ []) (hax : ∀ a ∈ axes, a ≠ [])
    (hnew : NewAxisGenerator axes maxStackDepth = .ok g)
    (fuel : Nat) (hfuel : (axes.map List.length).prod + 1 ≤ fuel) :
    runGen g fuel = some (cartesian axes) ∧
    (cartesian axes).length = (axes.map List.length).prod ∧
    ((∀ a ∈ axes, a.Nodup) → (cartesian axes).Nodup) ∧
    (∀ g1 g2 : Generator M, genNext g1 = some (none, g2) →
      genNext g2 = some (none, g2)) := by
  refine ⟨?_, cartesian_length axes, cartesian_nodup axes, genNext_false_idempotent⟩
  -- identify the generator returned by the constructor
  have hg : g = .recGen ⟨axes, zeros axes, false, false⟩ := by
    unfold NewAxisGenerator at hnew
    rw [if_neg (fun h0 => hne (List.length_eq_zero.mp h0))] at hnew
    split_ifs at hnew
    all_goals cases hnew
    all_goals rfl
  subst hg
  -- run it
  have hvalid0 := zeros_valid axes hax
  obtain ⟨c0, hc0, htail0⟩ := tailStream_eq_cons axes (zeros axes) hvalid0
  have hcart : tailStream axes (zeros axes) = cartesian axes := tailStream_zeros axes hax
  have hlen : (cartesian axes).length + 1 ≤ fuel := by
    rw [cartesian_length]; exact hfuel
  cases fuel with
  | zero => omega
  | succ f =>
    rw [runGen_succ]
    have hfirst : next (⟨axes, zeros axes, false, false⟩ : GenState M)
        = some (some c0, ⟨axes, zeros axes, true, false⟩) := by
      rw [next_unstarted, hc0]
    simp only [genNext, hfirst]
    dsimp only [Option.map]
    have hrest : ((inc axes (zeros axes)).elim [] (tailStream axes)).length + 1 ≤ f := by
      have h1 : (tailStream axes (zeros axes)).length
          = ((inc axes (zeros axes)).elim [] (tailStream axes)).length + 1 := by
        rw [htail0]; rfl
      rw [hcart] at h1
      omega
    rw [runGen_inv axes (zeros axes) hvalid0 f hrest]
    dsimp only [Option.map]
    rw [← hcart, htail0]

/-- Witness for (amended) C4 at the axes `[[1, 2], [5, 6, 7]]` with
default depth and fuel 7. -/
theorem claim_C4_witness :
    runGen (Generator.recGen ⟨[[1, 2], [5, 6, 7]], [0, 0], false, false⟩) 7
        = some (cartesian [[1, 2], [5, 6, 7]]) ∧
    (cartesian [[1, 2], [5, 6, 7]]).length
        = (([[1, 2], [5, 6, 7]] : List (List Nat)).map List.length).prod ∧
    ((∀ a ∈ [[1, 2], [5, 6, 7]], a.Nodup) → (cartesian [[1, 2], [5, 6, 7]]).Nodup) ∧
    (∀ g1 g2 : Generator Nat, genNext g1 = some (none, g2) →
      genNext g2 = some (none, g2)) :=
  claim_C4_axis_generator Nat [[1, 2], [5, 6, 7]] 0
    (.recGen ⟨[[1, 2], [5, 6, 7]], [0, 0], false, false⟩)
    (by decide) (by decide) rfl 7 (by decide)

end Planner

/-! ## projection: GridResult, column pruning, and the read API
(src/services/grid-service/src/projection/grid_result.go,
projection_options.go `pruneEmptyColumns`, grid_read_api.go)

Bytes of the string arena are `Nat < 256`; `RowOffsets` entries are `int32`
(`Int`), `StringOffsets` entries are `uint32` (`Nat`), `RowMasks` entries are
`uint64` (`Nat < 2 ^ 64`).  The off-process (`OffHeap`) storage variant is
not exercised by the pruner or the read API and is omitted.  Go code that can
panic is embedded with an outer `Option`: `none` models the panic. -/

namespace Projection

/-- `ColumnStats` (src/unnamed/part_014); the two `float64` extrema are
embedded as bit patterns — the pruner only copies them. -/
structure ColumnStats where
  NonEmptyCount : Int
  NumericCount : Int
  StringCount : Int
  NullCount : Int
  MinNumeric : Nat
  MaxNumeric : Nat
  HasMinMax : Bool
deriving Repr, DecidableEq

/-- The `GridResult` fields the pruner and the read API touch. -/
structure GridResult where
  PlanID : String
  ViewID : String
  WindowHash : String
  AtomRevision : Int
  Cells : List Cell
  RowOffsets : List Int
  RowMasks : List Nat
  StringArena : List Nat
  StringOffsets : List Nat
  ColumnStats : List ColumnStats
deriving Repr, DecidableEq

/-- Go `int32(n)`: two's-complement wrap-around of an `int`. -/
def toInt32 (n : Int) : Int := (n + 2 ^ 31) % 2 ^ 32 - 2 ^ 31

/-- `1 << bit` on `uint64` (a shift of 64 or more produces 0 in Go). -/
def shiftBit64 (bit : Nat) : Nat := (1 <<< bit) % 2 ^ 64

/-- Indexing `cells[idx]` with an `int` index; `none` is the
index-out-of-range panic (negative index). -/
def cellIndex (cells : List Cell) (idx : Int) : Option Cell :=
  if 0 ≤ idx then cells[idx.toNat]? else none

/-- The inner column loop of `pruneEmptyColumns` for one row: walk the `keep`
flags with the running column number `oldCol` and kept-column counter `bit`,
collecting the kept cells and the row's rebuilt 64-bit mask.  The
`idx < len(g.Cells)` boundary check silently skips a cell that is out of
range on the high side; a negative `oldStart` still panics at `g.Cells[idx]`. -/
def pruneRowLoop (cells : List Cell) (oldStart : Int) :
    List Bool → Nat → Nat → Option (List Cell × Nat)
  | [], _, _ => some ([], 0)
  | k :: keepRest, oldCol, bit =>
    if k then
      let idx := oldStart + oldCol
      if idx < (cells.length : Int) then
        match cellIndex cells idx with
        | none => none
        | some cell =>
          (pruneRowLoop cells oldStart keepRest (oldCol + 1) (bit + 1)).map
            fun r => (cell :: r.1,
              (if cell.IsNull then 0 else shiftBit64 bit) ||| r.2)
      else
        pruneRowLoop cells oldStart keepRest (oldCol + 1) (bit + 1)
    else
      pruneRowLoop cells oldStart keepRest (oldCol + 1) bit

/-- The outer row loop of `pruneEmptyColumns`: thread the global kept-cell
count (`newStart = len(newCells)`), producing the rebuilt cells, row offsets
and per-row masks. -/
def pruneRows (cells : List Cell) (keep : List Bool) :
    List Int → Nat → Option (List Cell × List Int × List Nat)
  | [], _ => some ([], [], [])
  | off :: restOffs, accLen =>
    match pruneRowLoop cells off keep 0 0 with
    | none => none
    | some rowRes =>
      (pruneRows cells keep restOffs (accLen + rowRes.1.length)).map
        fun r => (rowRes.1 ++ r.1, toInt32 accLen :: r.2.1, rowRes.2 :: r.2.2)

/-- The keep flags: a column survives iff its `NonEmptyCount` is positive. -/
def keepFlags (stats : List ColumnStats) : List Bool :=
  stats.map fun st => decide (0 < st.NonEmptyCount)

/-- `pruneEmptyColumns`.  The rebuilt `newMasks` slice is allocated with
`len(g.RowMasks)` entries and written at every row index, so a `RowMasks`
shorter than `RowOffsets` panics (`none`); surplus entries stay zero. -/
def pruneEmptyColumns (g : GridResult) : Option GridResult :=
  let colCount := g.ColumnStats.length
  if colCount = 0 then some g
  else
    let keep := keepFlags g.ColumnStats
    let keptCols := keep.count true
    if keptCols = colCount then some g
    else
      let newStats := g.ColumnStats.filter fun st => decide (0 < st.NonEmptyCount)
      if g.RowMasks.length < g.RowOffsets.length then none
      else
        match pruneRows g.Cells keep g.RowOffsets 0 with
        | none => none
        | some r =>
          some { g with
            ColumnStats := newStats
            Cells := r.1
            RowOffsets := r.2.1
            RowMasks := r.2.2 ++
              List.replicate (g.RowMasks.length - g.RowOffsets.length) 0 }

/-- The local `start := g.RowOffsets[row]` of `CellAt` (read after the row
bounds check). -/
def rowStart (g : GridResult) (row : Int) : Int := g.RowOffsets.getD row.toNat 0

/-- The local `end` of `CellAt`: the next row offset, or `len(g.Cells)` for
the last row. -/
def rowEnd (g : GridResult) (row : Int) : Int :=
  if row + 1 < (g.RowOffsets.length : Int) then g.RowOffsets.getD (row.toNat + 1) 0
  else (g.Cells.length : Int)

/-- `GridResult.CellAt` (grid_read_api.go): the `(Cell, bool)` result is the
inner `Option`; the outer `none` is an index-out-of-range panic at
`g.Cells[start+col]` (no check that `start+col` is nonnegative or below
`len(g.Cells)` when `end` overshoots). -/
def CellAt (g : GridResult) (row col : Int) : Option (Option Cell) :=
  if row < 0 ∨ (g.RowOffsets.length : Int) ≤ row then some none
  else if col < 0 ∨ rowEnd g row ≤ rowStart g row + col then some none
  else if 0 ≤ rowStart g row + col ∧ rowStart g row + col < (g.Cells.length : Int) then
    some (g.Cells[(rowStart g row + col).toNat]?)
  else none

/-- `GridResult.NumericAt`: numeric value (bit pattern) if the cell is
numeric. -/
def NumericAt (g : GridResult) (row col : Int) : Option (Option Nat) :=
  match CellAt g row col with
  | none => none
  | some none => some none
  | some (some cell) =>
    if cell.IsNull || cell.IsString then some none
    else some (some cell.AsNumeric)

/-- The local `offset := g.StringOffsets[idx]` of `StringAt`. -/
def strOffset (g : GridResult) (idx : Nat) : Nat := g.StringOffsets.getD idx 0

/-- The local `end` of `StringAt`: the next string offset, or the arena
length for the last string. -/
def strEnd (g : GridResult) (idx : Nat) : Nat :=
  if idx + 1 < g.StringOffsets.length then g.StringOffsets.getD (idx + 1) 0
  else g.StringArena.length

/-- `GridResult.StringAt`: the arena slice backing a string cell.  In Go the
`int(idx) < 0` test can never fire for a `uint32` on a 64-bit `int` and is
dropped here; the slice `arena[offset:end]` panics when `offset > end`
(outer `none`). -/
def StringAt (g : GridResult) (row col : Int) : Option (Option (List Nat)) :=
  match CellAt g row col with
  | none => none
  | some none => some none
  | some (some cell) =>
    if !cell.IsString then some none
    else if g.StringOffsets.length ≤ cell.StringIndex then some none
    else if g.StringArena.length < strEnd g cell.StringIndex then some none
    else if strOffset g cell.StringIndex ≤ strEnd g cell.StringIndex then
      some (some ((g.StringArena.drop (strOffset g cell.StringIndex)).take
        (strEnd g cell.StringIndex - strOffset g cell.StringIndex)))
    else none

/-- The well-formedness the claim states: `RowOffsets` nondecreasing valid
offsets into `Cells`, `StringOffsets` valid offsets into `StringArena`. -/
def WFClaimed (g : GridResult) : Prop :=
  g.RowOffsets.Chain' (· ≤ ·) ∧
  (∀ off ∈ g.RowOffsets, 0 ≤ off ∧ off ≤ (g.Cells.length : Int)) ∧
  (∀ so ∈ g.StringOffsets, so ≤ g.StringArena.length)

instance (g : GridResult) : Decidable (WFClaimed g) :=
  inferInstanceAs (Decidable (g.RowOffsets.Chain' (· ≤ ·) ∧
    (∀ off ∈ g.RowOffsets, 0 ≤ off ∧ off ≤ (g.Cells.length : Int)) ∧
    (∀ so ∈ g.StringOffsets, so ≤ g.StringArena.length)))

/-- The amended well-formedness: additionally `StringOffsets` nondecreasing. -/
def WFAmended (g : GridResult) : Prop :=
  WFClaimed g ∧ g.StringOffsets.Chain' (· ≤ ·)

instance (g : GridResult) : Decidable (WFAmended g) :=
  inferInstanceAs (Decidable (WFClaimed g ∧ g.StringOffsets.Chain' (· ≤ ·)))

/-- The kept cells of one row, as a specification: pair each keep flag with
the row's cells and keep the flagged ones, values untouched. -/
def rowKept (keep : List Bool) (cells : List Cell) (start : Nat) : List Cell :=
  (keep.zip ((cells.drop start).take keep.length)).filterMap
    fun kc => if kc.1 then some kc.2 else none

/-- The inner column loop copies exactly the kept cells of the row, verbatim,
whenever the row lies fully inside `cells`. -/
theorem pruneRowLoop_spec (cells : List Cell) :
    ∀ (keepRest : List Bool) (oldCol bit : Nat) (start : Int), 0 ≤ start →
    start.toNat + oldCol + keepRest.length ≤ cells.length →
    ∃ m, pruneRowLoop cells start keepRest oldCol bit =
      some (rowKept keepRest cells (start.toNat + oldCol), m) := by
  intro keepRest
  induction keepRest with
  | nil =>
    intro oldCol bit start hs hbound
    exact ⟨0, rfl⟩
  | cons k rest ih =>
    intro oldCol bit start hs hbound
    simp only [List.length_cons] at hbound
    have hlt : start.toNat + oldCol < cells.length := by omega
    have hcell : cells.drop (start.toNat + oldCol)
        = cells[start.toNat + oldCol] :: cells.drop (start.toNat + oldCol + 1) :=
      List.drop_eq_getElem_cons hlt
    have hrow : rowKept (k :: rest) cells (start.toNat + oldCol)
        = (if k then [cells[start.toNat + oldCol]] else [])
            ++ rowKept rest cells (start.toNat + (oldCol + 1)) := by
      unfold rowKept
      rw [List.length_cons, hcell, List.take_succ_cons, List.zip_cons_cons,
        List.filterMap_cons]
      have : start.toNat + oldCol + 1 = start.toNat + (oldCol + 1) := by omega
      rw [this]
      cases k <;> simp
    cases k with
    | true =>
      have hidxnn : (0 : Int) ≤ start + oldCol := by omega
      have hidxlt : start + (oldCol : Int) < (cells.length : Int) := by omega
      have htn : (start + (oldCol : Int)).toNat = start.toNat + oldCol := by omega
      obtain ⟨m, hm⟩ := ih (oldCol + 1) (bit + 1) start hs (by omega)
      refine ⟨(if cells[start.toNat + oldCol] |>.IsNull then 0
        else shiftBit64 bit) ||| m, ?_⟩
      rw [show pruneRowLoop cells start (true :: rest) oldCol bit
          = (if start + (oldCol : Int) < (cells.length : Int) then
              match cellIndex cells (start + oldCol) with
              | none => none
              | some cell =>
                (pruneRowLoop cells start rest (oldCol + 1) (bit + 1)).map
                  fun r => (cell :: r.1,
                    (if cell.IsNull then 0 else shiftBit64 bit) ||| r.2)
            else pruneRowLoop cells start rest (oldCol + 1) (bit + 1)) from rfl]
      rw [if_pos hidxlt]
      unfold cellIndex
      rw [if_pos hidxnn, htn, List.getElem?_eq_getElem hlt]
      rw [hm]
      simp only [Option.map_some]
      rw [hrow]
      simp
    | false =>
      obtain ⟨m, hm⟩ := ih (oldCol + 1) bit start hs (by omega)
      refine ⟨m, ?_⟩
      rw [show pruneRowLoop cells start (false :: rest) oldCol bit
          = pruneRowLoop cells start rest (oldCol + 1) bit from rfl]
      rw [hm, hrow]
      simp

/-- The outer row loop concatenates the kept cells of each row, verbatim. -/
theorem pruneRows_spec (cells : List Cell) (keep : List Bool) :
    ∀ (offs : List Int) (accLen : Nat),
    (∀ off ∈ offs, 0 ≤ off ∧ off.toNat + keep.length ≤ cells.length) →
    ∃ offs2 masks, pruneRows cells keep offs accLen =
      some (offs.flatMap (fun off => rowKept keep cells off.toNat), offs2, masks) := by
  intro offs
  induction offs with
  | nil => intro accLen _; exact ⟨[], [], rfl⟩
  | cons off restOffs ih =>
    intro accLen hb
    obtain ⟨h0, hlen⟩ := hb off (List.mem_cons_self _ _)
    obtain ⟨m, hm⟩ := pruneRowLoop_spec cells keep 0 0 off h0 (by omega)
    obtain ⟨offs2, masks, hrec⟩ :=
      ih (accLen + (rowKept keep cells off.toNat).length)
        fun o ho => hb o (List.mem_cons_of_mem _ ho)
    refine ⟨toInt32 accLen :: offs2, m :: masks, ?_⟩
    rw [show pruneRows cells keep (off :: restOffs) accLen
        = (match pruneRowLoop cells off keep 0 0 with
          | none => none
          | some rowRes =>
            (pruneRows cells keep restOffs (accLen + rowRes.1.length)).map
              fun r => (rowRes.1 ++ r.1, toInt32 accLen :: r.2.1,
                rowRes.2 :: r.2.2)) from rfl]
    rw [show (off.toNat + 0) = off.toNat from rfl] at hm
    rw [hm]
    dsimp only
    rw [hrec]
    simp

/-- Every column surviving the prune has a positive `NonEmptyCount`, so on a
pruned stats list the keep flags are all true. -/
theorem keepFlags_filter_count (stats : List ColumnStats) :
    (keepFlags (stats.filter fun st => decide (0 < st.NonEmptyCount))).count true
      = (stats.filter fun st => decide (0 < st.NonEmptyCount)).length := by
  have h1 : (keepFlags (stats.filter fun st => decide (0 < st.NonEmptyCount))).count true
      = (keepFlags (stats.filter fun st => decide (0 < st.NonEmptyCount))).length := by
    apply List.count_eq_length.mpr
    intro b hb
    obtain ⟨st, hst, rfl⟩ := List.mem_map.mp hb
    exact (List.of_mem_filter hst).symm
  rw [h1]
  simp [keepFlags]

/-- C7: `pruneEmptyColumns` is idempotent — pruning an already-pruned grid
changes nothing — and in every application it leaves the string arena and its
offsets untouched; under the function's stated layout assumptions (each row
offset nonnegative with a full row of `len(ColumnStats)` cells in bounds, and
`RowMasks` at least as long as `RowOffsets`) it does not panic and the
rebuilt cell array is exactly the concatenation, row by row, of the original
cells of the retained columns, values unchanged. -/
theorem claim_C7_prune_idempotent (g : GridResult) :
    (∀ g2, pruneEmptyColumns g = some g2 →
      pruneEmptyColumns g2 = some g2 ∧
      g2.StringArena = g.StringArena ∧ g2.StringOffsets = g.StringOffsets) ∧
    ((∀ off ∈ g.RowOffsets,
        0 ≤ off ∧ off.toNat + g.ColumnStats.length ≤ g.Cells.length) →
      g.RowOffsets.length ≤ g.RowMasks.length →
      ∃ g2, pruneEmptyColumns g = some g2 ∧
        (g2 = g ∨ g2.Cells = g.RowOffsets.flatMap fun off =>
          rowKept (keepFlags g.ColumnStats) g.Cells off.toNat)) := by
  constructor
  · intro g2 h
    unfold pruneEmptyColumns at h
    dsimp only at h
    split_ifs at h with h1 h2 h3
    · -- no columns: unchanged
      cases h
      refine ⟨?_, rfl, rfl⟩
      unfold pruneEmptyColumns
      rw [if_pos h1]
    · -- nothing to prune: unchanged
      cases h
      refine ⟨?_, rfl, rfl⟩
      unfold pruneEmptyColumns
      dsimp only
      rw [if_neg h1, if_pos h2]
    · cases hrows : pruneRows g.Cells (keepFlags g.ColumnStats) g.RowOffsets 0 with
      | none => rw [hrows] at h; cases h
      | some r =>
        rw [hrows] at h
        dsimp only at h
        cases h
        refine ⟨?_, rfl, rfl⟩
        by_cases hz :
            (g.ColumnStats.filter fun st => decide (0 < st.NonEmptyCount)).length = 0
        · unfold pruneEmptyColumns
          rw [if_pos hz]
        · unfold pruneEmptyColumns
          dsimp only
          rw [if_neg hz, if_pos (keepFlags_filter_count g.ColumnStats)]
  · intro hwf hm
    unfold pruneEmptyColumns
    dsimp only
    by_cases h1 : g.ColumnStats.length = 0
    · exact ⟨g, by rw [if_pos h1], Or.inl rfl⟩
    · rw [if_neg h1]
      by_cases h2 : (keepFlags g.ColumnStats).count true = g.ColumnStats.length
      · exact ⟨g, by rw [if_pos h2], Or.inl rfl⟩
      · rw [if_neg h2, if_neg (by omega)]
        obtain ⟨offs2, masks, hrows⟩ :=
          pruneRows_spec g.Cells (keepFlags g.ColumnStats) g.RowOffsets 0
            (by simpa [keepFlags] using hwf)
        rw [hrows]
        exact ⟨_, rfl, Or.inr rfl⟩

/-- Witness for C7 on a 1×2 grid whose second column is empty. -/
theorem claim_C7_witness :
    (pruneEmptyColumns
        ⟨"p", "v", "w", 1, [EncodeNumeric 5, EncodeNull], [0], [1], [7], [0],
          [⟨1, 1, 0, 0, 0, 0, false⟩, ⟨0, 0, 0, 1, 0, 0, false⟩]⟩).isSome := by
  obtain ⟨g2, hg2, _⟩ :=
    (claim_C7_prune_idempotent
      ⟨"p", "v", "w", 1, [EncodeNumeric 5, EncodeNull], [0], [1], [7], [0],
        [⟨1, 1, 0, 0, 0, 0, false⟩, ⟨0, 0, 0, 1, 0, 0, false⟩]⟩).2
      (by decide) (by decide)
  rw [hg2]
  rfl

/-- `getD` inside the bounds is plain indexing. -/
theorem getD_of_lt {α : Type} (l : List α) (n : Nat) (d : α) (h : n < l.length) :
    l.getD n d = l[n] := by
  rw [List.getD_eq_getElem?_getD, List.getElem?_eq_getElem h]
  rfl

/-- Adjacent entries of a nondecreasing list, through `getD`. -/
theorem chain_le_getD (l : List Nat) (h : l.Chain' (· ≤ ·)) (i : Nat)
    (hi : i + 1 < l.length) : l.getD i 0 ≤ l.getD (i + 1) 0 := by
  rw [getD_of_lt _ _ _ (by omega), getD_of_lt _ _ _ hi]
  have := List.chain'_iff_get.mp h i (by omega)
  simpa [List.get_eq_getElem] using this

/-- C10 as stated is false: a grid whose `StringOffsets` are each valid
offsets into the arena but not nondecreasing (`[5, 3]` with a 5-byte arena)
satisfies the claim's hypotheses, yet `StringAt 0 0` reaches the slice
`arena[5:3]`, which panics (outer `none`) instead of returning `ok = false`. -/
theorem claim_C10_counterexample :
    WFClaimed ⟨"", "", "", 0, [EncodeStringIndex 0], [0], [1],
        [0, 0, 0, 0, 0], [5, 3], []⟩ ∧
    StringAt ⟨"", "", "", 0, [EncodeStringIndex 0], [0], [1],
        [0, 0, 0, 0, 0], [5, 3], []⟩ 0 0 = none := by
  refine ⟨⟨List.chain'_singleton _, by decide, by decide⟩, rfl⟩

/-- `NumericAt` when the cell lookup reported `ok = false`. -/
theorem NumericAt_of_miss (g : GridResult) (row col : Int)
    (hc : CellAt g row col = some none) : NumericAt g row col = some none := by
  unfold NumericAt
  rw [hc]

/-- `NumericAt` when the cell lookup found a cell. -/
theorem NumericAt_of_cell (g : GridResult) (row col : Int) (cell : Cell)
    (hc : CellAt g row col = some (some cell)) :
    NumericAt g row col =
      if cell.IsNull || cell.IsString then some none
      else some (some cell.AsNumeric) := by
  unfold NumericAt
  rw [hc]

/-- `StringAt` when the cell lookup reported `ok = false`. -/
theorem StringAt_of_miss (g : GridResult) (row col : Int)
    (hc : CellAt g row col = some none) : StringAt g row col = some none := by
  unfold StringAt
  rw [hc]

/-- `StringAt` when the cell lookup found a cell. -/
theorem StringAt_of_cell (g : GridResult) (row col : Int) (cell : Cell)
    (hc : CellAt g row col = some (some cell)) :
    StringAt g row col =
      if !cell.IsString then some none
      else if g.StringOffsets.length ≤ cell.StringIndex then some none
      else if g.StringArena.length < strEnd g cell.StringIndex then some none
      else if strOffset g cell.StringIndex ≤ strEnd g cell.StringIndex then
        some (some ((g.StringArena.drop (strOffset g cell.StringIndex)).take
          (strEnd g cell.StringIndex - strOffset g cell.StringIndex)))
      else none := by
  unfold StringAt
  rw [hc]

/-- C10 (amended: `StringOffsets` additionally nondecreasing): the read
accessors are total — no access out of bounds — and every invalid input
(negative or out-of-range row or column, out-of-range string index, or
cell-kind mismatch) yields `ok = false` instead of a value. -/
theorem claim_C10_read_api_total (g : GridResult) (hwf : WFAmended g)
    (row col : Int) :
    CellAt g row col ≠ none ∧ NumericAt g row col ≠ none ∧
    StringAt g row col ≠ none ∧
    ((row < 0 ∨ (g.RowOffsets.length : Int) ≤ row ∨ col < 0) →
      CellAt g row col = some none) ∧
    (∀ cell, CellAt g row col = some (some cell) →
      ((cell.IsNull = true ∨ cell.IsString = true) →
        NumericAt g row col = some none) ∧
      (cell.IsString = false → StringAt g row col = some none) ∧
      (g.StringOffsets.length ≤ cell.StringIndex →
        StringAt g row col = some none)) := by
  obtain ⟨⟨hrochain, hro, hso⟩, hsochain⟩ := hwf
  have hC : CellAt g row col ≠ none := by
    unfold CellAt
    by_cases h1 : row < 0 ∨ (g.RowOffsets.length : Int) ≤ row
    · simp [h1]
    · rw [if_neg h1]
      by_cases h2 : col < 0 ∨ rowEnd g row ≤ rowStart g row + col
      · simp [h2]
      · rw [if_neg h2]
        push_neg at h1 h2
        have hrow : row.toNat < g.RowOffsets.length := by omega
        have hmem : rowStart g row ∈ g.RowOffsets := by
          rw [rowStart, getD_of_lt _ _ _ hrow]
          exact List.getElem_mem _
        obtain ⟨hs0, hsle⟩ := hro _ hmem
        have hend : rowEnd g row ≤ (g.Cells.length : Int) := by
          rw [rowEnd]
          split
          · next hlt2 =>
            have hrow2 : row.toNat + 1 < g.RowOffsets.length := by omega
            have hmem2 : g.RowOffsets.getD (row.toNat + 1) 0 ∈ g.RowOffsets := by
              rw [getD_of_lt _ _ _ hrow2]
              exact List.getElem_mem _
            exact (hro _ hmem2).2
          · exact le_refl _
        rw [if_pos ⟨by omega, by omega⟩]
        simp
  have hStrGuard : ∀ idx : Nat, idx < g.StringOffsets.length →
      strOffset g idx ≤ strEnd g idx := by
    intro idx hidx
    rw [strOffset, strEnd]
    split
    · next hlt2 => exact chain_le_getD _ hsochain idx hlt2
    · rw [getD_of_lt _ _ _ hidx]
      exact hso _ (List.getElem_mem _)
  refine ⟨hC, ?_, ?_, ?_, ?_⟩
  · -- NumericAt total
    cases hc : CellAt g row col with
    | none => exact absurd hc hC
    | some o =>
      cases o with
      | none => rw [NumericAt_of_miss g row col hc]; simp
      | some cell =>
        rw [NumericAt_of_cell g row col cell hc]
        split <;> simp
  · -- StringAt total
    cases hc : CellAt g row col with
    | none => exact absurd hc hC
    | some o =>
      cases o with
      | none => rw [StringAt_of_miss g row col hc]; simp
      | some cell =>
        rw [StringAt_of_cell g row col cell hc]
        by_cases hstr : cell.IsString
        · rw [if_neg (by simp [hstr])]
          by_cases hidx : g.StringOffsets.length ≤ cell.StringIndex
          · rw [if_pos hidx]; simp
          · rw [if_neg hidx]
            have hguard := hStrGuard cell.StringIndex (by omega)
            by_cases harena : g.StringArena.length < strEnd g cell.StringIndex
            · rw [if_pos harena]; simp
            · rw [if_neg harena, if_pos hguard]; simp
        · rw [if_pos (by simp [hstr])]; simp
  · -- invalid row or column
    intro h
    unfold CellAt
    by_cases h1 : row < 0 ∨ (g.RowOffsets.length : Int) ≤ row
    · rw [if_pos h1]
    · rw [if_neg h1]
      have hcol : col < 0 := by tauto
      rw [if_pos (Or.inl hcol)]
  · -- kind mismatches
    intro cell hcell
    refine ⟨fun hkind => ?_, fun hstr => ?_, fun hidx => ?_⟩
    · rw [NumericAt_of_cell g row col cell hcell]
      have : (cell.IsNull || cell.IsString) = true := by
        rcases hkind with h | h <;> simp [h]
      rw [if_pos this]
    · rw [StringAt_of_cell g row col cell hcell]
      rw [if_pos (by simp [hstr])]
    · rw [StringAt_of_cell g row col cell hcell]
      by_cases hstr : cell.IsString
      · rw [if_neg (by simp [hstr]), if_pos hidx]
      · rw [if_pos (by simp [hstr])]

/-- Witness for (amended) C10 on a small well-formed grid: the accessors are
total, and a negative row yields `ok = false`. -/
theorem claim_C10_witness :
    CellAt ⟨"", "", "", 0, [EncodeNumeric 7], [0], [1], [65], [0], []⟩ 0 0 ≠ none ∧
    CellAt ⟨"", "", "", 0, [EncodeNumeric 7], [0], [1], [65], [0], []⟩ (-1) 0
      = some none :=
  ⟨(claim_C10_read_api_total _
      ⟨⟨List.chain'_singleton _, by decide, by decide⟩, List.chain'_singleton _⟩ 0 0).1,
    (claim_C10_read_api_total _
      ⟨⟨List.chain'_singleton _, by decide, by decide⟩, List.chain'_singleton _⟩
      (-1) 0).2.2.2.1 (Or.inl (by decide))⟩

end Projection

/-! ## compute: cumulative time-intelligence aggregation
(src/services/grid-service/src/compute/time_intelligence_transformer.go,
`TimeIntelligenceTransformer.applyCumulative`)

Period values are `float64`; the loop only adds them, and the claim's values
are small integers, so they are embedded as `Rat` (exact where `float64` is).
Period ids are `int64` (`Int`).  The audit bookkeeping (`basePeriod`,
`TimeAudit`) and the `outKey` reconstruction (`withTimeKey`, measure
override, `EnsureCanonical`) do not affect the emitted per-period values and
are not modelled; the emissions are the `(periodID, outVal)` pairs written to
`out`. -/

namespace Compute

/-- `TimeAggType`: Sum / Average / Last. -/
inductive TimeAggType where
  | sum
  | average
  | last
deriving Repr, DecidableEq

/-- `TimeAggregationKind`: YTD / QTD / MTD / Rolling. -/
inductive TimeAggregationKind where
  | ytd
  | qtd
  | mtd
  | rolling
deriving Repr, DecidableEq

/-- `CalendarProvider` (fiscal-aware calendar callbacks). -/
structure CalendarProvider where
  YearOf : Int → Int
  QuarterOf : Int → Int
  MonthOf : Int → Int

/-- The mutable locals of `applyCumulative`'s loop. -/
structure CumulState where
  currentYear : Int
  currentQuarter : Int
  currentMonth : Int
  accSum : Rat
  count : Nat
  lastVal : Rat
deriving Repr, DecidableEq

/-- The `boundaryChanged` switch: a cumulative run restarts when the year
(YTD), year/quarter (QTD) or year/month (MTD) changes; `Rolling` has no case
and leaves the flag false. -/
def boundaryChanged (kind : TimeAggregationKind) (st : CumulState)
    (year quarter month : Int) : Bool :=
  match kind with
  | .ytd => year != st.currentYear
  | .qtd => year != st.currentYear || quarter != st.currentQuarter
  | .mtd => year != st.currentYear || month != st.currentMonth
  | .rolling => false

/-- One iteration of the `applyCumulative` loop body at period `p` (the
`i == 0` initialization is performed by `applyCumulative` before the loop,
which is equivalent because it makes the first boundary check false). -/
def cumulStep (cal : CalendarProvider) (kind : TimeAggregationKind)
    (aggType : TimeAggType) (byPeriod : Int → Rat) (st : CumulState) (p : Int) :
    (Int × Rat) × CumulState :=
  let val := byPeriod p
  let year := cal.YearOf p
  let quarter := cal.QuarterOf p
  let month := cal.MonthOf p
  let st1 := if boundaryChanged kind st year quarter month then
      { currentYear := year, currentQuarter := quarter, currentMonth := month,
        accSum := 0, count := 0, lastVal := 0 }
    else st
  let accSum := st1.accSum + val
  let count := st1.count + 1
  let lastVal := val
  let outVal := match aggType with
    | .sum => accSum
    | .average => if 0 < count then accSum / (count : Rat) else 0
    | .last => lastVal
  ((p, outVal), { st1 with accSum := accSum, count := count, lastVal := lastVal })

/-- The `applyCumulative` loop over the sorted periods. -/
def cumulLoop (cal : CalendarProvider) (kind : TimeAggregationKind)
    (aggType : TimeAggType) (byPeriod : Int → Rat) :
    CumulState → List Int → List (Int × Rat)
  | _, [] => []
  | st, p :: rest =>
    (cumulStep cal kind aggType byPeriod st p).1 ::
      cumulLoop cal kind aggType byPeriod
        (cumulStep cal kind aggType byPeriod st p).2 rest

/-- The loop state threaded over a period list. -/
def runCumul (cal : CalendarProvider) (kind : TimeAggregationKind)
    (aggType : TimeAggType) (byPeriod : Int → Rat) :
    CumulState → List Int → CumulState
  | st, [] => st
  | st, p :: rest =>
    runCumul cal kind aggType byPeriod
      (cumulStep cal kind aggType byPeriod st p).2 rest

/-- `applyCumulative`: initialize the running state from the first period
(the `i == 0` branch), then run the single O(N) pass, emitting one
`(periodID, outVal)` per period. -/
def applyCumulative (cal : CalendarProvider) (kind : TimeAggregationKind)
    (aggType : TimeAggType) (periods : List Int) (byPeriod : Int → Rat) :
    List (Int × Rat) :=
  match periods with
  | [] => []
  | p0 :: _ =>
    cumulLoop cal kind aggType byPeriod
      { currentYear := cal.YearOf p0, currentQuarter := cal.QuarterOf p0,
        currentMonth := cal.MonthOf p0, accSum := 0, count := 0, lastVal := 0 }
      periods

/-- Splitting the loop over an append. -/
theorem cumulLoop_append (cal : CalendarProvider) (kind : TimeAggregationKind)
    (aggType : TimeAggType) (byPeriod : Int → Rat) (l1 l2 : List Int)
    (st : CumulState) :
    cumulLoop cal kind aggType byPeriod st (l1 ++ l2)
      = cumulLoop cal kind aggType byPeriod st l1 ++
        cumulLoop cal kind aggType byPeriod
          (runCumul cal kind aggType byPeriod st l1) l2 := by
  induction l1 generalizing st with
  | nil => rfl
  | cons p rest ih => simp [cumulLoop, runCumul, ih]

/-- One emission per period. -/
theorem cumulLoop_length (cal : CalendarProvider) (kind : TimeAggregationKind)
    (aggType : TimeAggType) (byPeriod : Int → Rat) (l : List Int)
    (st : CumulState) :
    (cumulLoop cal kind aggType byPeriod st l).length = l.length := by
  induction l generalizing st with
  | nil => rfl
  | cons p rest ih => simp [cumulLoop, ih]

/-- For YTD, after processing period `q` the state's running year is
`YearOf q` — either a boundary just reset it, or it was already equal. -/
theorem cumulStep_year (cal : CalendarProvider) (aggType : TimeAggType)
    (byPeriod : Int → Rat) (st : CumulState) (q : Int) :
    (cumulStep cal .ytd aggType byPeriod st q).2.currentYear = cal.YearOf q := by
  by_cases h : boundaryChanged .ytd st (cal.YearOf q) (cal.QuarterOf q) (cal.MonthOf q)
  · simp [cumulStep, h]
  · unfold boundaryChanged at h
    simp only [bne_iff_ne, ne_eq, not_not] at h
    simp [cumulStep, boundaryChanged, h]

/-- For YTD/Sum, a period whose year differs from the state's running year
restarts the running sum: its output is its own value. -/
theorem cumulStep_reset (cal : CalendarProvider) (byPeriod : Int → Rat)
    (st : CumulState) (p : Int) (h : st.currentYear ≠ cal.YearOf p) :
    (cumulStep cal .ytd .sum byPeriod st p).1 = (p, byPeriod p) := by
  have hb : (cal.YearOf p != st.currentYear) = true := by
    simp only [bne_iff_ne, ne_eq]
    omega
  simp [cumulStep, boundaryChanged, hb]

/-- C8: with kind YTD and aggregation Sum, the sorted periods Jan < Feb < Mar
carrying 10, 20, 5 produce the running outputs 10, 30, 35; and in general,
whenever a period's calendar year differs from the preceding period's year,
the running sum resets so that period's output equals its own value. -/
theorem claim_C8_cumulative_ytd :
    applyCumulative ⟨fun _ => 2025, fun _ => 1, fun p => p⟩ .ytd .sum [1, 2, 3]
        (fun p => if p = 1 then 10 else if p = 2 then 20 else 5)
      = [(1, 10), (2, 30), (3, 35)] ∧
    (∀ (cal : CalendarProvider) (byPeriod : Int → Rat) (pre post : List Int)
        (q p : Int), cal.YearOf p ≠ cal.YearOf q →
      (applyCumulative cal .ytd .sum (pre ++ q :: p :: post) byPeriod)[pre.length + 1]?
        = some (p, byPeriod p)) := by
  constructor
  · simp only [applyCumulative, cumulLoop, cumulStep, boundaryChanged, runCumul]
    norm_num
  · intro cal byPeriod pre post q p hy
    obtain ⟨p0, rest, hl⟩ :=
      List.exists_cons_of_ne_nil (show pre ++ q :: p :: post ≠ [] by simp)
    have happ : applyCumulative cal .ytd .sum (pre ++ q :: p :: post) byPeriod
          = cumulLoop cal .ytd .sum byPeriod
              ⟨cal.YearOf p0, cal.QuarterOf p0, cal.MonthOf p0, 0, 0, 0⟩
              (pre ++ q :: p :: post) := by
      conv_lhs => rw [hl]
      conv_rhs => rw [hl]
      rfl
    rw [happ, cumulLoop_append]
    rw [List.getElem?_append_right (by rw [cumulLoop_length]; omega)]
    have hidx : pre.length + 1 - (cumulLoop cal .ytd .sum byPeriod
        ⟨cal.YearOf p0, cal.QuarterOf p0, cal.MonthOf p0, 0, 0, 0⟩ pre).length
        = 1 := by
      rw [cumulLoop_length]
      omega
    rw [hidx]
    rw [show cumulLoop cal .ytd .sum byPeriod
        (runCumul cal .ytd .sum byPeriod
          ⟨cal.YearOf p0, cal.QuarterOf p0, cal.MonthOf p0, 0, 0, 0⟩ pre)
        (q :: p :: post)
      = (cumulStep cal .ytd .sum byPeriod
          (runCumul cal .ytd .sum byPeriod
            ⟨cal.YearOf p0, cal.QuarterOf p0, cal.MonthOf p0, 0, 0, 0⟩ pre) q).1 ::
        (cumulStep cal .ytd .sum byPeriod
          (cumulStep cal .ytd .sum byPeriod
            (runCumul cal .ytd .sum byPeriod
              ⟨cal.YearOf p0, cal.QuarterOf p0, cal.MonthOf p0, 0, 0, 0⟩ pre) q).2
          p).1 ::
        cumulLoop cal .ytd .sum byPeriod
          (cumulStep cal .ytd .sum byPeriod
            (cumulStep cal .ytd .sum byPeriod
              (runCumul cal .ytd .sum byPeriod
                ⟨cal.YearOf p0, cal.QuarterOf p0, cal.MonthOf p0, 0, 0, 0⟩ pre) q).2
            p).2 post from rfl]
    rw [show ((1 : Nat)) = 0 + 1 from rfl, List.getElem?_cons_succ,
      List.getElem?_cons_zero]
    rw [cumulStep_reset cal byPeriod _ p (by rw [cumulStep_year]; omega)]

/-- Witness for the reset half of C8: with a calendar whose year equals the
period id, the period after a year change outputs its own value. -/
theorem claim_C8_witness :
    (applyCumulative ⟨fun p => p, fun _ => 1, fun _ => 1⟩ .ytd .sum [1, 2, 3]
        (fun p => (p : Rat)))[2]?
      = some (3, (3 : Rat)) :=
  claim_C8_cumulative_ytd.2 ⟨fun p => p, fun _ => 1, fun _ => 1⟩
    (fun p => (p : Rat)) [1] [] 2 3 (by decide)

end Compute

/-! ## fetcher: `RedisAtomFetcher.FetchAtoms`
(src/services/grid-service/src/storage/circuit_breaker_hybrid.go, package
`fetcher`, lines 629-739)

The embedding covers the chunked fetch loop after the call-scoped breaker
guard has admitted the request and the block has been expanded to keys
(`allowRequest`, `expandBlockToAtomKeys`).  Keys are a type parameter `K`
(the `AtomKey` values), parsed float values a type parameter `V`, and chunk
errors a type parameter `E`.  A raw `MGet` reply slot is `nil`
(`missing`), a non-string value (`nonString`), an unparsable string
(`unparsable`), or a parsed float (`num v`).  Chunks run concurrently but
merge disjoint work under a mutex; the embedding processes them in chunk
order, which fixes "the first error" to the first failing chunk in that
order and models the merged `out` map as the list of collected bindings. -/

namespace Fetcher

/-- One `MGet` reply slot as seen by the parsing loop. -/
inductive RawVal (V : Type) where
  | missing
  | nonString
  | unparsable
  | num (v : V)
deriving Repr, DecidableEq

/-- `chunkStrings` with a positive chunk size `size1 + 1`. -/
def chunkListPos {α : Type} (size1 : Nat) : List α → List (List α)
  | [] => []
  | a :: rest =>
    (a :: rest).take (size1 + 1) :: chunkListPos size1 (rest.drop size1)
termination_by l => l.length
decreasing_by simp; omega

/-- `chunkStrings`: split into contiguous chunks; `size <= 0` (embedded
`= 0`) falls back to 5000. -/
def chunkStrings {α : Type} (arr : List α) (size : Nat) : List (List α) :=
  if size = 0 then chunkListPos 4999 arr else chunkListPos (size - 1) arr

/-- The per-chunk parsing loop: `raw == nil` → skip; non-string → skip;
`ParseFloat` failure → skip; parsed value → bind it to the chunk's key at
the same position (`keys[idx*chunkSize+i]`). -/
def chunkLocal {K V : Type} : List K → List (RawVal V) → List (K × V)
  | k :: ks, r :: rs =>
    match r with
    | .num v => (k, v) :: chunkLocal ks rs
    | _ => chunkLocal ks rs
  | _, _ => []

/-- The concurrent chunk loop, in chunk order: a failed `pipe.Exec` records
the first error and contributes nothing; a reply of the wrong length
contributes nothing and sets no error; otherwise the parsed bindings are
merged into the output. -/
def fetchLoop {K V E : Type} (acc : List (K × V)) (firstErr : Option E) :
    List (List K × Except E (List (RawVal V))) → List (K × V) × Option E
  | [] => (acc, firstErr)
  | (cks, reply) :: rest =>
    match reply with
    | .error e => fetchLoop acc (firstErr.orElse fun _ => some e) rest
    | .ok vals =>
      if vals.length = cks.length then
        fetchLoop (acc ++ chunkLocal cks vals) firstErr rest
      else
        fetchLoop acc firstErr rest

/-- `FetchAtoms` (post-guard): chunk the keys, fetch each chunk (the remote
replies are the oracle `replies`, one per chunk), and return whatever was
collected together with the first chunk error, if any. -/
def FetchAtoms {K V E : Type} (keys : List K) (chunkSize : Nat)
    (replies : List (Except E (List (RawVal V)))) : List (K × V) × Option E :=
  fetchLoop [] none ((chunkStrings keys chunkSize).zip replies)

/-- The chunk errors, in chunk order. -/
def errorsOf {K V E : Type}
    (pairs : List (List K × Except E (List (RawVal V)))) : List E :=
  pairs.filterMap fun c => match c.2 with
    | .error e => some e
    | .ok _ => none

/-- The parsed bindings contributed by each succeeding chunk. -/
def okContrib {K V E : Type}
    (pairs : List (List K × Except E (List (RawVal V)))) : List (List (K × V)) :=
  pairs.filterMap fun c => match c.2 with
    | .ok vals =>
      if vals.length = c.1.length then some (chunkLocal c.1 vals) else none
    | .error _ => none

/-- Once the first error is recorded, it is the one returned. -/
theorem fetchLoop_err_some {K V E : Type} (acc : List (K × V)) (e : E)
    (pairs : List (List K × Except E (List (RawVal V)))) :
    (fetchLoop acc (some e) pairs).2 = some e := by
  induction pairs generalizing acc with
  | nil => rfl
  | cons c rest ih =>
    obtain ⟨cks, reply⟩ := c
    cases reply with
    | error e2 => simpa [fetchLoop, Option.orElse] using ih acc
    | ok vals =>
      by_cases h : vals.length = cks.length
      · simpa [fetchLoop, h] using ih (acc ++ chunkLocal cks vals)
      · simpa [fetchLoop, h] using ih acc

/-- The error component is the first chunk error. -/
theorem fetchLoop_err {K V E : Type} (acc : List (K × V))
    (pairs : List (List K × Except E (List (RawVal V)))) :
    (fetchLoop acc none pairs).2 = (errorsOf pairs).head? := by
  induction pairs generalizing acc with
  | nil => rfl
  | cons c rest ih =>
    obtain ⟨cks, reply⟩ := c
    cases reply with
    | error e => simp [fetchLoop, Option.orElse, errorsOf, fetchLoop_err_some]
    | ok vals =>
      by_cases h : vals.length = cks.length
      · simpa [fetchLoop, h, errorsOf] using ih (acc ++ chunkLocal cks vals)
      · simpa [fetchLoop, h, errorsOf] using ih acc

/-- The map component collects exactly the succeeding chunks' bindings; a
failed chunk neither discards them nor contributes. -/
theorem fetchLoop_map {K V E : Type} (acc : List (K × V)) (fe : Option E)
    (pairs : List (List K × Except E (List (RawVal V)))) :
    (fetchLoop acc fe pairs).1 = acc ++ (okContrib pairs).flatten := by
  induction pairs generalizing acc fe with
  | nil => simp [fetchLoop, okContrib]
  | cons c rest ih =>
    obtain ⟨cks, reply⟩ := c
    cases reply with
    | error e => simp [fetchLoop, okContrib, ih]
    | ok vals =>
      by_cases h : vals.length = cks.length
      · simp [fetchLoop, okContrib, h, ih]
      · simp [fetchLoop, okContrib, h, ih]

/-- The imperative parse loop equals the declarative "keep only the parsed
values" filter. -/
theorem chunkLocal_spec {K V : Type} (cks : List K) (vals : List (RawVal V)) :
    chunkLocal cks vals = (cks.zip vals).filterMap fun kr =>
      match kr.2 with
      | .num v => some (kr.1, v)
      | _ => none := by
  induction cks generalizing vals with
  | nil => cases vals <;> rfl
  | cons k ks ih =>
    cases vals with
    | nil => rfl
    | cons r rs =>
      cases r <;> simp [chunkLocal, List.zip_cons_cons, List.filterMap_cons, ih]

/-- C9: `FetchAtoms` returns the first chunk error alongside the partial map
collected from the chunks that succeeded — failing chunks do not discard it —
and within a succeeding chunk, a missing, non-string, or unparsable value is
skipped rather than failing the chunk or the call. -/
theorem claim_C9_fetch_partial_results {K V E : Type} (keys : List K)
    (chunkSize : Nat) (replies : List (Except E (List (RawVal V)))) :
    (FetchAtoms keys chunkSize replies).2
      = (errorsOf ((chunkStrings keys chunkSize).zip replies)).head? ∧
    (FetchAtoms keys chunkSize replies).1
      = (okContrib ((chunkStrings keys chunkSize).zip replies)).flatten ∧
    (∀ (cks : List K) (vals : List (RawVal V)),
      chunkLocal cks vals = (cks.zip vals).filterMap fun kr =>
        match kr.2 with
        | .num v => some (kr.1, v)
        | _ => none) :=
  ⟨fetchLoop_err [] _, by simpa using fetchLoop_map [] none _, chunkLocal_spec⟩

end Fetcher

/-! ## storage: `TieredGridCache` versioned two-tier cache
(src/services/grid-service/src/storage/grid_cache_tiered_advanced.go)

Single-instance model of the invalidating node.  The mutable state is the
instance's `versionMap` (an association list read through first-match
lookup, matching Go map overwrite semantics) and its L1 store of
`versionedEntry` values keyed by the `l1Key` string.  The L2 tier is an
external system: each `Get` takes the L2 reply as an oracle argument
(`none` = L2 miss or error), and the L2 side effects of `Set` and
`invalidateInternal` (remote set, remote invalidate, pubsub publish)
happen outside the modeled state.  The pubsub subscriber's `setVersion`
(driven by events from other instances) is excluded: the claim is scoped
to the instance that performed the invalidation.  Telemetry, hot-key
tracking, and X-Fetch do not touch the modeled state and are omitted.
`tieredGet` returns, alongside the entry, the version tag under which the
entry is held in L1 (for an L1 hit the stored `ve.Version`, for an L2 hit
the current version it is repopulated with): the "associated version" the
claim speaks about. -/

namespace Storage

/-- `GridCacheKey` (grid_cache_redis.go). -/
structure GridCacheKey where
  PlanID : String
  ViewID : String
  UserID : String
  ScenarioID : String
  AtomRevision : Int
  WindowHash : String
  AdditionalTag : String

/-- `versionedEntry`: an L1 slot tags the entry with the version key and
version current when it was stored. -/
structure VEntry (E : Type) where
  VersionKey : String
  Version : Int
  Entry : E

/-- The single-instance state: `versionMap` plus the L1 store. -/
structure CacheState (E : Type) where
  versionMap : List (String × Int)
  l1 : List (String × VEntry E)

/-- `l1Key`: the deterministic logical L1 key string. -/
def l1Key (key : GridCacheKey) : String :=
  key.PlanID ++ "|" ++ key.ViewID ++ "|" ++ key.UserID ++ "|" ++
    key.ScenarioID ++ "|" ++ toString key.AtomRevision ++ "|" ++
    key.WindowHash ++
    (if key.AdditionalTag = "" then "" else "|" ++ key.AdditionalTag)

/-- `versionKey`: plan-level (`viewID == ""`) or plan+view. -/
def versionKey (planID viewID : String) : String :=
  if viewID = "" then planID else planID ++ "|" ++ viewID

/-- First-match association lookup (Go map read). -/
def vmLookup : List (String × Int) → String → Option Int
  | [], _ => none
  | (k, v) :: rest, key => if k = key then some v else vmLookup rest key

/-- `getVersion`: absent keys read as 0. -/
def getVersion (m : List (String × Int)) (key : String) : Int :=
  match vmLookup m key with
  | some v => v
  | none => 0

/-- `bumpVersion`: copy-on-write increment; the new binding shadows any old
one under first-match lookup, as the Go copy loop overwrites it. -/
def bumpVersion (m : List (String × Int)) (key : String) :
    List (String × Int) × Int :=
  ((key, getVersion m key + 1) :: m, getVersion m key + 1)

/-- First-match L1 lookup. -/
def l1Lookup {E : Type} : List (String × VEntry E) → String → Option (VEntry E)
  | [], _ => none
  | (k, v) :: rest, key => if k = key then some v else l1Lookup rest key

/-- `t.l1.Del`: remove every binding for the key. -/
def l1Del {E : Type} (l1 : List (String × VEntry E)) (key : String) :
    List (String × VEntry E) :=
  l1.filter fun kv => kv.1 ≠ key

/-- `TieredGridCache.Get`: an L1 entry is trusted only if its version key
and version match the current ones; otherwise it is deleted and the L2
reply (the oracle) is consulted and, on success, repopulated into L1 under
the current version. -/
def tieredGet {E : Type} (s : CacheState E) (key : GridCacheKey)
    (l2Reply : Option E) : Option (E × Int) × CacheState E :=
  match l1Lookup s.l1 (l1Key key) with
  | some ve =>
    if ve.VersionKey = versionKey key.PlanID key.ViewID ∧
        ve.Version = getVersion s.versionMap (versionKey key.PlanID key.ViewID)
    then
      (some (ve.Entry, ve.Version), s)
    else
      match l2Reply with
      | none => (none, { s with l1 := l1Del s.l1 (l1Key key) })
      | some e =>
        (some (e, getVersion s.versionMap (versionKey key.PlanID key.ViewID)),
          { s with l1 :=
              (l1Key key,
                ⟨versionKey key.PlanID key.ViewID,
                  getVersion s.versionMap (versionKey key.PlanID key.ViewID),
                  e⟩) :: l1Del s.l1 (l1Key key) })
  | none =>
    match l2Reply with
    | none => (none, s)
    | some e =>
      (some (e, getVersion s.versionMap (versionKey key.PlanID key.ViewID)),
        { s with l1 :=
            (l1Key key,
              ⟨versionKey key.PlanID key.ViewID,
                getVersion s.versionMap (versionKey key.PlanID key.ViewID),
                e⟩) :: s.l1 })

/-- `TieredGridCache.Set` (the L2 write is external): store the entry in L1
tagged with the current version. -/
def tieredSet {E : Type} (s : CacheState E) (key : GridCacheKey) (entry : E) :
    CacheState E :=
  { s with l1 :=
      (l1Key key,
        ⟨versionKey key.PlanID key.ViewID,
          getVersion s.versionMap (versionKey key.PlanID key.ViewID),
          entry⟩) :: s.l1 }

/-- `invalidateInternal`: bump the version for the plan or plan+view key
(L2 invalidate and pubsub publish are external).  The returned `Int` is
the new version `newVersion`. -/
def invalidateInternal {E : Type} (s : CacheState E) (planID viewID : String) :
    Int × CacheState E :=
  ((bumpVersion s.versionMap (versionKey planID viewID)).2,
    { s with versionMap := (bumpVersion s.versionMap (versionKey planID viewID)).1 })

/-- `InvalidateByAtomRevision`: plan-level, `viewID = ""`; the atom
revision only flows to the external L2 invalidate and the published event. -/
def InvalidateByAtomRevision {E : Type} (s : CacheState E) (planID : String)
    (_atomRevision : Int) : Int × CacheState E :=
  invalidateInternal s planID ""

/-- One cache operation on the instance, with the L2 reply as the oracle
for gets. -/
inductive CacheOp (E : Type) where
  | get (key : GridCacheKey) (l2Reply : Option E)
  | set (key : GridCacheKey) (entry : E)
  | invalidate (planID viewID : String)

/-- The state after one operation. -/
def stepOp {E : Type} (s : CacheState E) : CacheOp E → CacheState E
  | .get key l2Reply => (tieredGet s key l2Reply).2
  | .set key entry => tieredSet s key entry
  | .invalidate planID viewID => (invalidateInternal s planID viewID).2

/-- The state after a sequence of operations. -/
def runOps {E : Type} (s : CacheState E) : List (CacheOp E) → CacheState E
  | [] => s
  | op :: rest => runOps (stepOp s op) rest

/-- A `tieredGet` hit always carries the current version of the key's
version key: the L1 branch checks it, the L2 branch stamps it. -/
theorem tieredGet_version {E : Type} (s : CacheState E) (key : GridCacheKey)
    (r : Option E) (e : E) (ver : Int)
    (h : (tieredGet s key r).1 = some (e, ver)) :
    ver = getVersion s.versionMap (versionKey key.PlanID key.ViewID) := by
  unfold tieredGet at h
  split at h
  · split at h
    · rename_i hcond
      cases h
      exact hcond.2
    · split at h
      · cases h
      · cases h
        rfl
  · split at h
    · cases h
    · cases h
      rfl

/-- `tieredGet` never writes the version map. -/
theorem tieredGet_versionMap {E : Type} (s : CacheState E) (key : GridCacheKey)
    (r : Option E) : ((tieredGet s key r).2).versionMap = s.versionMap := by
  unfold tieredGet
  split
  · split
    · rfl
    · split <;> rfl
  · split <;> rfl

/-- Bumping one key never lowers any key's version. -/
theorem getVersion_bump_le (m : List (String × Int)) (vk k : String) :
    getVersion m k ≤ getVersion (bumpVersion m vk).1 k := by
  by_cases h : vk = k
  · subst h
    simp [bumpVersion, getVersion, vmLookup]
  · simp only [bumpVersion, getVersion, vmLookup, if_neg h]
    exact le_refl _

/-- No operation lowers any key's version on this instance. -/
theorem stepOp_version_mono {E : Type} (s : CacheState E) (op : CacheOp E)
    (k : String) :
    getVersion s.versionMap k ≤ getVersion (stepOp s op).versionMap k := by
  cases op with
  | get key r => rw [stepOp, tieredGet_versionMap]
  | set key e => exact le_refl _
  | invalidate p v => exact getVersion_bump_le _ _ _

/-- Version monotonicity along any operation sequence. -/
theorem runOps_version_mono {E : Type} (s : CacheState E)
    (ops : List (CacheOp E)) (k : String) :
    getVersion s.versionMap k ≤ getVersion (runOps s ops).versionMap k := by
  induction ops generalizing s with
  | nil => exact le_refl _
  | cons op rest ih =>
    exact le_trans (stepOp_version_mono s op k) (ih (stepOp s op))

/-- The invalidated key's version after `invalidateInternal` is the
returned `newVersion`. -/
theorem invalidateInternal_version {E : Type} (s : CacheState E)
    (p v : String) :
    getVersion ((invalidateInternal s p v).2).versionMap (versionKey p v)
      = (invalidateInternal s p v).1 := by
  simp [invalidateInternal, bumpVersion, getVersion, vmLookup]

/-- C3: as stated the claim fails.  `InvalidateByAtomRevision(plan, rev)`
bumps the version under the plan-level version key `plan`, but a `Get`
whose key has a nonempty ViewID checks its L1 entry against the version
under `plan|view`, which the plan-level invalidation never touches: the
concrete trace set (plan p, view v) / invalidate plan p / get (plan p,
view v) returns the pre-invalidation L1 entry tagged with version 0 even
though the post-invalidation version is 1 (first conjunct).  The claimed
property does hold for every Get whose key carries an empty ViewID, since
such a Get reads the plan-level version key: after the invalidation
returns `newVersion`, a hit after any further operation sequence on this
instance carries a version ≥ `newVersion` (second conjunct). -/
theorem claim_C3_invalidation_version_safety :
    ((InvalidateByAtomRevision
        (tieredSet (E := Nat) ⟨[], []⟩ ⟨"p", "v", "u", "sc", 1, "w", ""⟩ 7)
        "p" 1).1 = 1 ∧
      (tieredGet
        (InvalidateByAtomRevision
          (tieredSet (E := Nat) ⟨[], []⟩ ⟨"p", "v", "u", "sc", 1, "w", ""⟩ 7)
          "p" 1).2
        ⟨"p", "v", "u", "sc", 1, "w", ""⟩ none).1 = some (7, 0)) ∧
    (∀ (E : Type) (s : CacheState E) (p : String) (rev : Int)
      (ops : List (CacheOp E)) (key : GridCacheKey) (r : Option E)
      (e : E) (ver : Int),
      key.PlanID = p → key.ViewID = "" →
      (tieredGet (runOps (InvalidateByAtomRevision s p rev).2 ops) key r).1
        = some (e, ver) →
      (InvalidateByAtomRevision s p rev).1 ≤ ver) := by
  refine ⟨⟨by decide, by decide⟩, ?_⟩
  intro E s p rev ops key r e ver hplan hview h
  have hver := tieredGet_version _ _ _ _ _ h
  rw [hplan, hview] at hver
  calc (InvalidateByAtomRevision s p rev).1
      = getVersion ((InvalidateByAtomRevision s p rev).2).versionMap
          (versionKey p "") := (invalidateInternal_version s p "").symm
    _ ≤ getVersion (runOps (InvalidateByAtomRevision s p rev).2 ops).versionMap
          (versionKey p "") :=
        runOps_version_mono (InvalidateByAtomRevision s p rev).2 ops _
    _ = ver := hver.symm

/-- The second conjunct of C3's theorem instantiated: set after the
invalidation under the plan-level key, then hit it. -/
theorem claim_C3_witness :
    (tieredGet
        (runOps (InvalidateByAtomRevision (E := Nat) ⟨[], []⟩ "p" 1).2
          [CacheOp.set ⟨"p", "", "u", "sc", 1, "w", ""⟩ 7])
        ⟨"p", "", "u", "sc", 1, "w", ""⟩ none).1 = some (7, 1) ∧
    (InvalidateByAtomRevision (E := Nat) ⟨[], []⟩ "p" 1).1 ≤ 1 :=
  ⟨by decide,
    claim_C3_invalidation_version_safety.2 Nat ⟨[], []⟩ "p" 1
      [CacheOp.set ⟨"p", "", "u", "sc", 1, "w", ""⟩ 7]
      ⟨"p", "", "u", "sc", 1, "w", ""⟩ none 7 1 rfl rfl (by decide)⟩

end Storage

/-! ## storage: `HybridCircuitBreaker`
(src/services/grid-service/src/storage/circuit_breaker_hybrid.go)

Sequential single-threaded model of one breaker.  Times and durations are
nanosecond counts as `Nat` (Go `int64` UnixNano values, nonnegative in
scope); failure counts are `Int` (Go `int32`).  The wrapped function's
result is an oracle argument to `Execute` (`Except Unit T`), the backoff
jitter (`rng.Int63n(base)`) is an oracle argument to `recordFailure`, and
the distributed store is disabled (`DistributedEnabled = false`,
`store = nil`) with the cached/stale fallbacks off
(`EnableCachedOnly = EnableStaleOK = false`), so an open-handled call
yields `BreakerOpenError` — none of these paths invokes the wrapped `fn`.
In the sequential model the atomic snapshot read by the fast path always
equals the locked state.  `newFailureBuckets` is embedded at the bucket
count the constructor uses, 16 (so `mask = 15`); the Go `delta < 0` guard
in `index` coincides with truncated `Nat` subtraction.  `BreakerOpen` is
rendered `opened` because `open` is reserved in Lean. -/

namespace Storage

/-- `BreakerState`. -/
inductive BreakerState where
  | closed
  | opened
  | halfOpen
deriving DecidableEq

/-- The config fields the modeled paths read; durations in ns, zero
standing for Go's "not set / nonpositive". -/
structure HybridBreakerConfig where
  FailureThreshold : Int
  BaseBackoff : Nat
  MaxBackoff : Nat
  HalfOpenMaxTrials : Int
  WindowSize : Nat

/-- `failureBuckets`: 16 power-of-two buckets over the rolling window. -/
structure FailureBuckets where
  buckets : List Int
  bucketStart : Nat
  bucketSize : Nat
  total : Int

/-- `newFailureBuckets(windowSize, 16)`: bucket size `windowSize/16`,
falling back to 1s when that truncates to zero. -/
def newFailureBuckets (windowSize : Nat) (startNow : Nat) : FailureBuckets :=
  { buckets := List.replicate 16 0
    bucketStart := startNow
    bucketSize := if windowSize / 16 = 0 then 1000000000 else windowSize / 16
    total := 0 }

/-- `fb.index(now)` against an explicit start: `((now-start)/size) & 15`,
with a negative delta reading as bucket 0 (truncated subtraction). -/
def fbIndexAt (start size now : Nat) : Nat :=
  ((now - start) / size) % 16

/-- `fb.Reset(now)`. -/
def fbReset (fb : FailureBuckets) (now : Nat) : FailureBuckets :=
  { fb with buckets := List.replicate fb.buckets.length 0
            bucketStart := now
            total := 0 }

/-- `fb.rotate(now)`: a full-window gap resets everything; otherwise the
loop clears the bucket at `index(bucketStart + i*bucketSize)` for
`i = 0..steps-1` (which is bucket `i`), subtracting each cleared count
from the running total, then advances `bucketStart` by `steps` buckets. -/
def fbRotate (fb : FailureBuckets) (now : Nat) : FailureBuckets :=
  if now < fb.bucketStart + fb.bucketSize then fb
  else if (now - fb.bucketStart) / fb.bucketSize ≥ fb.buckets.length then
    fbReset fb now
  else
    { fb with
      buckets := ((List.range ((now - fb.bucketStart) / fb.bucketSize)).foldl
        (fun st i =>
          (st.1.set (fbIndexAt fb.bucketStart fb.bucketSize
              (fb.bucketStart + i * fb.bucketSize)) 0,
           st.2 - st.1.getD (fbIndexAt fb.bucketStart fb.bucketSize
              (fb.bucketStart + i * fb.bucketSize)) 0))
        (fb.buckets, fb.total)).1
      bucketStart := fb.bucketStart
        + ((now - fb.bucketStart) / fb.bucketSize) * fb.bucketSize
      total := ((List.range ((now - fb.bucketStart) / fb.bucketSize)).foldl
        (fun st i =>
          (st.1.set (fbIndexAt fb.bucketStart fb.bucketSize
              (fb.bucketStart + i * fb.bucketSize)) 0,
           st.2 - st.1.getD (fbIndexAt fb.bucketStart fb.bucketSize
              (fb.bucketStart + i * fb.bucketSize)) 0))
        (fb.buckets, fb.total)).2 }

/-- `fb.addFailure(now)`: rotate, then increment the bucket at `index(now)`
and the total. -/
def fbAddFailure (fb : FailureBuckets) (now : Nat) : FailureBuckets :=
  { fbRotate fb now with
    buckets := (fbRotate fb now).buckets.set
      (fbIndexAt (fbRotate fb now).bucketStart (fbRotate fb now).bucketSize now)
      ((fbRotate fb now).buckets.getD
        (fbIndexAt (fbRotate fb now).bucketStart (fbRotate fb now).bucketSize now) 0
        + 1)
    total := (fbRotate fb now).total + 1 }

/-- The breaker's locked state (snapshot kept implicit: it mirrors these
fields in the sequential model). -/
structure Breaker where
  cfg : HybridBreakerConfig
  state : BreakerState
  openedAt : Nat
  retryAfter : Nat
  halfOpenTrials : Int
  failures : FailureBuckets

/-- `computeBackoffLocked` with the rng jitter as an oracle: doubled per
failure over the threshold from `BaseBackoff` (default 1s), capped at
`MaxBackoff` (default 30s), plus jitter. -/
def computeBackoff (cfg : HybridBreakerConfig) (count : Int) (jitter : Nat) : Nat :=
  min ((2 ^ (count - cfg.FailureThreshold).toNat)
        * (if cfg.BaseBackoff = 0 then 1000000000 else cfg.BaseBackoff))
      (if cfg.MaxBackoff = 0 then 30000000000 else cfg.MaxBackoff)
    + jitter

/-- `recordFailure`: add the failure, read the windowed count (which
rotates again), and open with a backoff deadline when the count reaches
the threshold and the breaker is not already open. -/
def recordFailure (b : Breaker) (now : Nat) (jitter : Nat) : Breaker :=
  if b.state = .opened then
    { b with failures := fbRotate (fbAddFailure b.failures now) now }
  else if (fbRotate (fbAddFailure b.failures now) now).total
      ≥ b.cfg.FailureThreshold then
    { b with failures := fbRotate (fbAddFailure b.failures now) now
             state := .opened
             openedAt := now
             retryAfter := now + computeBackoff b.cfg
               (fbRotate (fbAddFailure b.failures now) now).total jitter }
  else
    { b with failures := fbRotate (fbAddFailure b.failures now) now }

/-- `recordSuccess`: reset the window; from OPEN or HALF_OPEN transition
to CLOSED. -/
def recordSuccess (b : Breaker) (now : Nat) : Breaker :=
  if b.state = .halfOpen ∨ b.state = .opened then
    { b with failures := fbReset b.failures now, state := .closed }
  else
    { b with failures := fbReset b.failures now }

/-- `currentState`: an OPEN breaker whose non-zero `retryAfter` has passed
moves to HALF_OPEN with the trial counter cleared. -/
def currentState (b : Breaker) (now : Nat) : Breaker :=
  if b.state = .opened ∧ b.retryAfter ≠ 0 ∧ b.retryAfter < now then
    { b with state := .halfOpen, halfOpenTrials := 0 }
  else b

/-- The outcome of one `Execute` call with fallbacks disabled. -/
inductive ExecOutcome (T : Type) where
  | ok (v : T)
  | failed
  | openError (retryAfter : Nat)
deriving DecidableEq

/-- `allowHalfOpenTrial` bumping the counter on success. -/
def bumpTrials (b : Breaker) : Breaker :=
  { b with halfOpenTrials := b.halfOpenTrials + 1 }

/-- The recovery path of `Execute` after `currentState`: OPEN fails fast;
HALF_OPEN admits at most `HalfOpenMaxTrials` trial calls, others fail
fast; otherwise the wrapped call runs and its result is recorded. -/
def executeRecovery {T : Type} (b1 : Breaker) (now : Nat)
    (fnRes : Except Unit T) (jitter : Nat) : ExecOutcome T × Bool × Breaker :=
  match b1.state with
  | .opened => (.openError b1.retryAfter, false, b1)
  | .halfOpen =>
    if b1.halfOpenTrials < b1.cfg.HalfOpenMaxTrials then
      match fnRes with
      | .ok v => (.ok v, true, recordSuccess (bumpTrials b1) now)
      | .error _ => (.failed, true, recordFailure (bumpTrials b1) now jitter)
    else (.openError b1.retryAfter, false, b1)
  | .closed =>
    match fnRes with
    | .ok v => (.ok v, true, recordSuccess b1 now)
    | .error _ => (.failed, true, recordFailure b1 now jitter)

/-- `Execute` (result, whether `fn` was invoked, next state): the CLOSED
fast path runs `fn` directly (success resets lazily only when failures are
pending); any other snapshot state goes through `currentState` and the
recovery path. -/
def Execute {T : Type} (b : Breaker) (now : Nat) (fnRes : Except Unit T)
    (jitter : Nat) : ExecOutcome T × Bool × Breaker :=
  match b.state with
  | .closed =>
    match fnRes with
    | .ok v =>
      (.ok v, true, if b.failures.total > 0 then recordSuccess b now else b)
    | .error _ => (.failed, true, recordFailure b now jitter)
  | _ => executeRecovery (currentState b now) now fnRes jitter

/-- `NewHybridCircuitBreaker`: CLOSED, fresh window anchored at the
construction instant, defaulted trial count and window size. -/
def NewHybridCircuitBreaker (cfg : HybridBreakerConfig) (startNow : Nat) :
    Breaker :=
  { cfg := { cfg with
      HalfOpenMaxTrials :=
        if cfg.HalfOpenMaxTrials ≤ 0 then 1 else cfg.HalfOpenMaxTrials
      WindowSize := if cfg.WindowSize = 0 then 30000000000 else cfg.WindowSize }
    state := .closed
    openedAt := 0
    retryAfter := 0
    halfOpenTrials := 0
    failures := newFailureBuckets
      (if cfg.WindowSize = 0 then 30000000000 else cfg.WindowSize) startNow }

/-- C2: the first part of the claim fails.  With threshold 5 and the
default 30s window (bucket size 1.875s), five failures at 0s, 5s, 10s,
15s, and 20s all fall inside one 30s window, yet the breaker stays CLOSED
with a windowed count of 1 (first conjunct): every failure lands in bucket
`index(now) = 0` after rotation, and the next rotation clears buckets
`0..steps-1` — bucket 0 first — so each rotation erases the entire
recorded history instead of only the expired buckets.  The other two parts
hold: a single success in HALF_OPEN yields CLOSED with the failure window
reset to 0 (second conjunct), and while OPEN with `retryAfter` not yet
passed, `Execute` returns the open outcome without invoking the wrapped
function (third conjunct). -/
theorem claim_C2_breaker_transitions :
    ((List.foldl (fun b t => recordFailure b t 0)
        (NewHybridCircuitBreaker ⟨5, 0, 0, 1, 30000000000⟩ 0)
        [0, 5000000000, 10000000000, 15000000000, 20000000000]).state
        = BreakerState.closed ∧
      (List.foldl (fun b t => recordFailure b t 0)
        (NewHybridCircuitBreaker ⟨5, 0, 0, 1, 30000000000⟩ 0)
        [0, 5000000000, 10000000000, 15000000000, 20000000000]).failures.total
        = 1) ∧
    (∀ (b : Breaker) (now : Nat), b.state = .halfOpen →
      (recordSuccess b now).state = .closed ∧
      (recordSuccess b now).failures.total = 0) ∧
    (∀ (T : Type) (b : Breaker) (now : Nat) (fnRes : Except Unit T)
      (jitter : Nat), b.state = .opened →
      ¬(b.retryAfter ≠ 0 ∧ b.retryAfter < now) →
      (Execute b now fnRes jitter).2.1 = false ∧
      (Execute b now fnRes jitter).1 = ExecOutcome.openError b.retryAfter) := by
  refine ⟨⟨by decide, by decide⟩, ?_, ?_⟩
  · intro b now h
    simp [recordSuccess, h, fbReset]
  · intro T b now fnRes jitter h hra
    obtain ⟨cfg, st, oa, ra, hot, fb⟩ := b
    simp only at h
    subst h
    simp [Execute, executeRecovery, currentState, hra]

/-- The second and third conjuncts of C2's theorem instantiated: a
HALF_OPEN breaker closing on one success, and an OPEN breaker failing fast
before its retry deadline. -/
theorem claim_C2_witness :
    ((recordSuccess
        ⟨⟨5, 0, 0, 1, 30000000000⟩, BreakerState.halfOpen, 0, 100, 0,
          newFailureBuckets 30000000000 0⟩ 7).state = BreakerState.closed ∧
      (recordSuccess
        ⟨⟨5, 0, 0, 1, 30000000000⟩, BreakerState.halfOpen, 0, 100, 0,
          newFailureBuckets 30000000000 0⟩ 7).failures.total = 0) ∧
    ((Execute (T := Nat)
        ⟨⟨5, 0, 0, 1, 30000000000⟩, BreakerState.opened, 0, 100, 0,
          newFailureBuckets 30000000000 0⟩ 50 (Except.ok 0) 0).2.1 = false ∧
      (Execute (T := Nat)
        ⟨⟨5, 0, 0, 1, 30000000000⟩, BreakerState.opened, 0, 100, 0,
          newFailureBuckets 30000000000 0⟩ 50 (Except.ok 0) 0).1
        = ExecOutcome.openError 100) :=
  ⟨claim_C2_breaker_transitions.2.1
      ⟨⟨5, 0, 0, 1, 30000000000⟩, BreakerState.halfOpen, 0, 100, 0,
        newFailureBuckets 30000000000 0⟩ 7 rfl,
    claim_C2_breaker_transitions.2.2 Nat
      ⟨⟨5, 0, 0, 1, 30000000000⟩, BreakerState.opened, 0, 100, 0,
        newFailureBuckets 30000000000 0⟩ 50 (Except.ok 0) 0 rfl (by decide)⟩

end Storage

end GridService
